import Mathlib

/-!
Verification development for the Steiner-tree reduction engine of
`applications/STP/src/reduce.c` (SCIP STP application).

The graph is embedded shallowly: the twinned-arc arrays of the C `GRAPH`
struct are represented by a list of undirected edges (each list entry stands
for one arc pair `e`, `e ⊕ 1`), so the C arc count `g->edges` corresponds to
`2 * edges.length` here.  Reduction *tests* (`reduce_sd`, `reduce_da`, ...)
and graph primitives (`graph_trail_arr`, `graph_edge_del`,
`graph_pc_deleteTerm`, ...) live in other translation units that are not part
of the sampled sources; where they are needed they are modelled from the
specification, and this is recorded in the corresponding doc comment.
All code of `reduce.c` itself (dispatcher, orchestrator loops, work-limit and
reduction-bound computations, `level0` variants, `deleteMultiedges`) is
embedded faithfully from the source.
-/

/-- Problem variants (`stp_type` of the C graph, closed enum from grph.h). -/
inductive StpType where
  | spg | sap | pcspg | rpcspg | nwspg | dcstp | nwptspg
  | rsmt | oarsmt | mwcsp | dhcstp | gstp | rmwcsp | brmwcsp
deriving DecidableEq

/-- One undirected edge = one arc pair of the C graph.  `c1` is the cost of
the arc `u → v`, `c2` the cost of the reverse arc `v → u` (they differ for
the asymmetric variants). -/
structure Edge where
  u : Nat
  v : Nat
  c1 : ℚ
  c2 : ℚ
deriving DecidableEq

/-- Shallow embedding of the C `GRAPH` structure, restricted to the fields
read by `reduce.c`.  `isTerm`/`fixedT`/`twinT`/`prize` are the per-node
terminal tag (`Is_term(g->term[k])`), the fixed-terminal predicate
(`graph_pc_knotIsFixedTerm`), the pseudo-terminal twin
(`graph_pc_getTwinTerm`) and the prize array of the prize-collecting
variants.  The scratch field `g->mark` is recomputed by every user and is
not part of the state. -/
structure Graph where
  knots : Nat
  source : Nat
  stp_type : StpType
  edges : List Edge
  isTerm : List Bool
  fixedT : List Bool
  twinT : List Nat
  prize : List ℚ
deriving DecidableEq

/-- Number of arcs, as counted by the C field `g->edges`: each list entry is
an arc pair. -/
def nedges (g : Graph) : Nat := 2 * g.edges.length

/-- Number of (undirected) edges present in the graph. -/
def edgeCount (g : Graph) : Nat := g.edges.length

/-- Degree of node `k` (the C array `g->grad`). -/
def grad (g : Graph) (k : Nat) : Nat :=
  (g.edges.filter (fun e => e.u = k ∨ e.v = k)).length

/-- Number of non-isolated nodes; the meaningful node count of the mutable
graph (the C `g->knots` array bound itself is never shrunk by `reduce`). -/
def nodeCount (g : Graph) : Nat :=
  ((List.range g.knots).filter (fun k => 0 < grad g k)).length

def termOf (g : Graph) (k : Nat) : Bool := g.isTerm.getD k false

def fixedOf (g : Graph) (k : Nat) : Bool := g.fixedT.getD k false

def twinOf (g : Graph) (k : Nat) : Nat := g.twinT.getD k k

def prizeOf (g : Graph) (k : Nat) : ℚ := g.prize.getD k 0

/-- Basic well-formedness: the root and all edge endpoints are valid node
indices. -/
def wf (g : Graph) : Prop :=
  g.source < g.knots ∧ ∀ e ∈ g.edges, e.u < g.knots ∧ e.v < g.knots

instance (g : Graph) : Decidable (wf g) := by
  unfold wf; infer_instance

/-! ### Reachability (`graph_trail_arr`)

`graph_trail_arr` is not part of the sampled sources.  Modelled from the
spec: "Connectivity cleanup (`level0`): DFS/BFS from `source`; delete every
node unreachable from source".  One `trailStep` pass propagates marks along
every arc whose tail is already marked; since arcs come in pairs, both
directions of each edge are considered.  The `allow` parameter models the
arc filter used by the rooted prize-collecting variant (plain trailing
allows every arc).  Iterating the pass `knots` times reaches the closure. -/

/-- Mark propagation over the two arcs of a single edge: if the tail of an
arc is marked and the arc is allowed, its head gets marked. -/
def edgeStep (allow : Nat → Nat → Bool) (e : Edge) (s : Finset ℕ) : Finset ℕ :=
  let s1 := if e.u ∈ s ∧ allow e.u e.v = true then insert e.v s else s
  if e.v ∈ s ∧ allow e.v e.u = true then insert e.u s1 else s1

def trailStep (allow : Nat → Nat → Bool) : List Edge → Finset ℕ → Finset ℕ
  | [], s => s
  | e :: es, s => trailStep allow es (edgeStep allow e s)

/-- Arc filter of the plain `graph_trail_arr`: every arc is followed. -/
def allowAll : Nat → Nat → Bool := fun _ _ => true

/-- Set of nodes reachable from `source` (the marks computed by
`graph_trail_arr(scip, g, g->source)`). -/
def reach (g : Graph) : Finset ℕ :=
  (fun s => trailStep allowAll g.edges s)^[g.knots] {g.source}

lemma subset_edgeStep (allow : Nat → Nat → Bool) (e : Edge) (s : Finset ℕ) :
    s ⊆ edgeStep allow e s := by
  unfold edgeStep
  by_cases h1 : e.u ∈ s ∧ allow e.u e.v = true <;>
    by_cases h2 : e.v ∈ s ∧ allow e.v e.u = true <;>
      simp only [h1, h2, if_true, if_false] <;>
        intro a ha <;> simp [ha]

lemma edgeStep_closed (allow : Nat → Nat → Bool) {R : Finset ℕ} (e : Edge)
    (h1R : e.u ∈ R → e.v ∈ R) (h2R : e.v ∈ R → e.u ∈ R) {s : Finset ℕ}
    (hs : s ⊆ R) : edgeStep allow e s ⊆ R := by
  unfold edgeStep
  by_cases h1 : e.u ∈ s ∧ allow e.u e.v = true <;>
    by_cases h2 : e.v ∈ s ∧ allow e.v e.u = true <;>
      simp only [h1, h2, if_true, if_false]
  · exact Finset.insert_subset (h2R (hs h2.1))
      (Finset.insert_subset (h1R (hs h1.1)) hs)
  · exact Finset.insert_subset (h1R (hs h1.1)) hs
  · exact Finset.insert_subset (h2R (hs h2.1)) hs
  · exact hs

lemma mem_edgeStep_fwd (allow : Nat → Nat → Bool) (e : Edge) {s : Finset ℕ}
    (hu : e.u ∈ s) (hall : allow e.u e.v = true) : e.v ∈ edgeStep allow e s := by
  unfold edgeStep
  simp only [hu, hall, and_self, if_true]
  split
  · exact Finset.mem_insert_of_mem (Finset.mem_insert_self _ _)
  · exact Finset.mem_insert_self _ _

lemma mem_edgeStep_bwd (allow : Nat → Nat → Bool) (e : Edge) {s : Finset ℕ}
    (hv : e.v ∈ s) (hall : allow e.v e.u = true) : e.u ∈ edgeStep allow e s := by
  unfold edgeStep
  simp only [hv, hall, and_self, if_true]
  exact Finset.mem_insert_self _ _

lemma edgeStep_of_far (allow : Nat → Nat → Bool) (e : Edge) {s : Finset ℕ}
    (hu : e.u ∉ s) (hv : e.v ∉ s) : edgeStep allow e s = s := by
  unfold edgeStep
  simp [hu, hv]

lemma trailStep_subset (allow : Nat → Nat → Bool) :
    ∀ (es : List Edge) (s : Finset ℕ), s ⊆ trailStep allow es s := by
  intro es
  induction es with
  | nil => intro s; simp [trailStep]
  | cons e es ih =>
    intro s
    exact Finset.Subset.trans (subset_edgeStep allow e s) (ih _)

lemma trailStep_closed (allow : Nat → Nat → Bool) {R : Finset ℕ} :
    ∀ (es : List Edge), (∀ e ∈ es, (e.u ∈ R → e.v ∈ R) ∧ (e.v ∈ R → e.u ∈ R)) →
      ∀ (s : Finset ℕ), s ⊆ R → trailStep allow es s ⊆ R := by
  intro es
  induction es with
  | nil => intro _ s hs; simpa [trailStep] using hs
  | cons e es ih =>
    intro hR s hs
    refine ih (fun f hf => hR f (List.mem_cons_of_mem _ hf)) _ ?_
    have h := hR e (List.mem_cons_self _ _)
    exact edgeStep_closed allow e h.1 h.2 hs

lemma trailStep_mem_fwd (allow : Nat → Nat → Bool) :
    ∀ (es : List Edge) (s : Finset ℕ) (e : Edge), e ∈ es → e.u ∈ s →
      allow e.u e.v = true → e.v ∈ trailStep allow es s := by
  intro es
  induction es with
  | nil => intro s e he; simp at he
  | cons f es ih =>
    intro s e he hu hall
    rcases List.mem_cons.mp he with rfl | he'
    · exact trailStep_subset allow es _ (mem_edgeStep_fwd allow e hu hall)
    · exact ih _ e he' (subset_edgeStep allow f s hu) hall

lemma trailStep_mem_bwd (allow : Nat → Nat → Bool) :
    ∀ (es : List Edge) (s : Finset ℕ) (e : Edge), e ∈ es → e.v ∈ s →
      allow e.v e.u = true → e.u ∈ trailStep allow es s := by
  intro es
  induction es with
  | nil => intro s e he; simp at he
  | cons f es ih =>
    intro s e he hv hall
    rcases List.mem_cons.mp he with rfl | he'
    · exact trailStep_subset allow es _ (mem_edgeStep_bwd allow e hv hall)
    · exact ih _ e he' (subset_edgeStep allow f s hv) hall

lemma iterate_infl {f : Finset ℕ → Finset ℕ} (hinfl : ∀ s, s ⊆ f s) :
    ∀ (n : ℕ) (s : Finset ℕ), s ⊆ f^[n] s := by
  intro n
  induction n with
  | zero => intro s; simp
  | succ n ih =>
    intro s
    rw [Function.iterate_succ_apply']
    exact Finset.Subset.trans (ih s) (hinfl _)

lemma iterate_chain {f : Finset ℕ → Finset ℕ} (hinfl : ∀ s, s ⊆ f s)
    {n m : ℕ} (hnm : n ≤ m) (s : Finset ℕ) : f^[n] s ⊆ f^[m] s := by
  obtain ⟨k, rfl⟩ := Nat.exists_eq_add_of_le hnm
  rw [Nat.add_comm, Function.iterate_add_apply]
  exact iterate_infl hinfl k _

/-- An inflationary map on subsets of a finite bound `B` reaches a fixed
point after at most `B.card` iterations from a nonempty start. -/
lemma iterate_fix_of_card {f : Finset ℕ → Finset ℕ} (hinfl : ∀ s, s ⊆ f s)
    {B : Finset ℕ} (hB : ∀ s, s ⊆ B → f s ⊆ B) {s0 : Finset ℕ}
    (h0 : s0 ⊆ B) (hne : s0.Nonempty) :
    f (f^[B.card] s0) = f^[B.card] s0 := by
  have hsub : ∀ n, f^[n] s0 ⊆ B := by
    intro n
    induction n with
    | zero => simpa using h0
    | succ n ih => rw [Function.iterate_succ_apply']; exact hB _ ih
  by_cases hstab : ∃ i, i < B.card ∧ f (f^[i] s0) = f^[i] s0
  · obtain ⟨i, hi, hfix⟩ := hstab
    have hconst : ∀ j, f^[i + j] s0 = f^[i] s0 := by
      intro j
      induction j with
      | zero => rfl
      | succ j ih =>
        rw [← Nat.add_assoc, Function.iterate_succ_apply', ih, hfix]
    have h1 : f^[B.card] s0 = f^[i] s0 := by
      have h2 := hconst (B.card - i)
      rwa [Nat.add_sub_cancel' (le_of_lt hi)] at h2
    rw [h1, hfix]
  · push_neg at hstab
    have hgrow : ∀ n, n ≤ B.card → n + s0.card ≤ (f^[n] s0).card := by
      intro n
      induction n with
      | zero => simp
      | succ n ih =>
        intro hn
        have hne' : f^[n] s0 ⊂ f (f^[n] s0) :=
          Finset.ssubset_iff_subset_ne.mpr
            ⟨hinfl _, fun heq => hstab n (by omega) heq.symm⟩
        have hlt := Finset.card_lt_card hne'
        rw [Function.iterate_succ_apply']
        have h3 := ih (by omega)
        omega
    have h1 := hgrow B.card le_rfl
    have h2 := Finset.card_le_card (hsub B.card)
    have h3 : 1 ≤ s0.card := Finset.card_pos.mpr hne
    omega

lemma reach_fix (g : Graph) (h : wf g) :
    trailStep allowAll g.edges (reach g) = reach g := by
  have hfix := iterate_fix_of_card (f := fun s => trailStep allowAll g.edges s)
    (B := Finset.range g.knots)
    (fun s => trailStep_subset allowAll g.edges s)
    (fun s hs => trailStep_closed allowAll g.edges
      (fun e he => ⟨fun _ => Finset.mem_range.mpr (h.2 e he).2,
                    fun _ => Finset.mem_range.mpr (h.2 e he).1⟩) s hs)
    (Finset.singleton_subset_iff.mpr (Finset.mem_range.mpr h.1))
    (Finset.singleton_nonempty g.source)
  rw [Finset.card_range] at hfix
  exact hfix

lemma source_mem_reach (g : Graph) : g.source ∈ reach g := by
  have h := iterate_infl (f := fun s => trailStep allowAll g.edges s)
    (fun s => trailStep_subset allowAll g.edges s) g.knots {g.source}
  exact h (Finset.mem_singleton_self _)

lemma reach_closed (g : Graph) (h : wf g) :
    ∀ e ∈ g.edges, (e.u ∈ reach g → e.v ∈ reach g) ∧ (e.v ∈ reach g → e.u ∈ reach g) := by
  intro e he
  constructor
  · intro hu
    rw [← reach_fix g h]
    exact trailStep_mem_fwd allowAll g.edges _ e he hu rfl
  · intro hv
    rw [← reach_fix g h]
    exact trailStep_mem_bwd allowAll g.edges _ e he hv rfl

/-- Dropping the edges with both endpoints outside a closed superset of the
marks does not change a trailing pass. -/
lemma trailStep_filter_eq (allow : Nat → Nat → Bool) {R : Finset ℕ} :
    ∀ (es : List Edge), (∀ e ∈ es, (e.u ∈ R → e.v ∈ R) ∧ (e.v ∈ R → e.u ∈ R)) →
      ∀ (s : Finset ℕ), s ⊆ R →
        trailStep allow (es.filter (fun e => decide (e.u ∈ R ∧ e.v ∈ R))) s
          = trailStep allow es s := by
  intro es
  induction es with
  | nil => intro _ s _; rfl
  | cons e es ih =>
    intro hR s hs
    have hcl := hR e (List.mem_cons_self _ _)
    have hR' : ∀ f ∈ es, (f.u ∈ R → f.v ∈ R) ∧ (f.v ∈ R → f.u ∈ R) :=
      fun f hf => hR f (List.mem_cons_of_mem _ hf)
    by_cases hq : e.u ∈ R ∧ e.v ∈ R
    · rw [List.filter_cons_of_pos (by simpa using hq)]
      show trailStep allow (es.filter _) (edgeStep allow e s) = _
      rw [ih hR' (edgeStep allow e s) (edgeStep_closed allow e hcl.1 hcl.2 hs)]
      rfl
    · have hu : e.u ∉ R := fun hu => hq ⟨hu, hcl.1 hu⟩
      have hv : e.v ∉ R := fun hv => hq ⟨hcl.2 hv, hv⟩
      rw [List.filter_cons_of_neg (by simpa using hq)]
      rw [ih hR' s hs]
      show _ = trailStep allow es (edgeStep allow e s)
      rw [edgeStep_of_far allow e (fun hus => hu (hs hus)) (fun hvs => hv (hs hvs))]

/-! ### `level0`: remove unconnected vertices (reduce.c, lines 410-438)

The C loop runs `k` from `nnodes - 1` down to `0` and, for every unmarked
node of positive degree, deletes all its incident edges
(`graph_edge_del(scip, g, g->inpbeg[k], TRUE)` removes the arc pair).
`graph_edge_del` is modelled from the spec as removal of the edge from the
edge list. -/

def level0Sweep (R : Finset ℕ) : List Nat → List Edge → List Edge
  | [], es => es
  | k :: ks, es =>
    if k ∉ R ∧ 0 < (es.filter (fun e => decide (e.u = k ∨ e.v = k))).length then
      level0Sweep R ks (es.filter (fun e => decide (¬(e.u = k ∨ e.v = k))))
    else
      level0Sweep R ks es

/-- `level0` of reduce.c: recompute the marks from `source`, then delete all
edges of unreachable positive-degree nodes. -/
def level0 (g : Graph) : Graph :=
  { g with edges := level0Sweep (reach g) ((List.range g.knots).reverse) g.edges }

lemma level0Sweep_eq_filter (R : Finset ℕ) :
    ∀ (ks : List Nat) (es : List Edge),
      level0Sweep R ks es
        = es.filter (fun e => decide (¬((e.u ∈ ks ∧ e.u ∉ R) ∨ (e.v ∈ ks ∧ e.v ∉ R)))) := by
  intro ks
  induction ks with
  | nil =>
    intro es
    simp [level0Sweep]
  | cons k ks ih =>
    intro es
    by_cases hcond : k ∉ R ∧ 0 < (es.filter (fun e => decide (e.u = k ∨ e.v = k))).length
    · rw [level0Sweep, if_pos hcond, ih, List.filter_filter]
      apply List.filter_congr
      intro e _
      have hk : k ∉ R := hcond.1
      rw [← Bool.decide_and, decide_eq_decide]
      simp only [List.mem_cons]
      constructor
      · rintro ⟨h1, h2⟩
        rintro (⟨hu, hu2⟩ | ⟨hv, hv2⟩)
        · rcases hu with rfl | hu
          · exact h2 (Or.inl rfl)
          · exact h1 (Or.inl ⟨hu, hu2⟩)
        · rcases hv with rfl | hv
          · exact h2 (Or.inr rfl)
          · exact h1 (Or.inr ⟨hv, hv2⟩)
      · intro h1
        constructor
        · rintro (⟨hu, hu2⟩ | ⟨hv, hv2⟩)
          · exact h1 (Or.inl ⟨Or.inr hu, hu2⟩)
          · exact h1 (Or.inr ⟨Or.inr hv, hv2⟩)
        · rintro (rfl | rfl)
          · exact h1 (Or.inl ⟨Or.inl rfl, hk⟩)
          · exact h1 (Or.inr ⟨Or.inl rfl, hk⟩)
    · rw [level0Sweep, if_neg hcond, ih]
      apply List.filter_congr
      intro e he
      by_cases hk : k ∈ R
      · rw [decide_eq_decide]
        simp only [List.mem_cons]
        constructor
        · rintro h1 (⟨hu, hu2⟩ | ⟨hv, hv2⟩)
          · rcases hu with rfl | hu
            · exact hu2 hk
            · exact h1 (Or.inl ⟨hu, hu2⟩)
          · rcases hv with rfl | hv
            · exact hv2 hk
            · exact h1 (Or.inr ⟨hv, hv2⟩)
        · rintro h1 (⟨hu, hu2⟩ | ⟨hv, hv2⟩)
          · exact h1 (Or.inl ⟨Or.inr hu, hu2⟩)
          · exact h1 (Or.inr ⟨Or.inr hv, hv2⟩)
      · have hgrad : (es.filter (fun e => decide (e.u = k ∨ e.v = k))).length = 0 := by
          by_contra hne
          exact hcond ⟨hk, Nat.pos_of_ne_zero hne⟩
        have hnotinc : ¬(e.u = k ∨ e.v = k) := by
          intro hinc
          have hmem : e ∈ es.filter (fun e => decide (e.u = k ∨ e.v = k)) :=
            List.mem_filter.mpr ⟨he, decide_eq_true hinc⟩
          rw [List.length_eq_zero] at hgrad
          rw [hgrad] at hmem
          simp at hmem
        rw [decide_eq_decide]
        simp only [List.mem_cons]
        constructor
        · rintro h1 (⟨hu, hu2⟩ | ⟨hv, hv2⟩)
          · rcases hu with rfl | hu
            · exact hnotinc (Or.inl rfl)
            · exact h1 (Or.inl ⟨hu, hu2⟩)
          · rcases hv with rfl | hv
            · exact hnotinc (Or.inr rfl)
            · exact h1 (Or.inr ⟨hv, hv2⟩)
        · rintro h1 (⟨hu, hu2⟩ | ⟨hv, hv2⟩)
          · exact h1 (Or.inl ⟨Or.inr hu, hu2⟩)
          · exact h1 (Or.inr ⟨Or.inr hv, hv2⟩)

/-- Net effect of `level0`: keep exactly the edges with both endpoints
reachable from the root. -/
lemma level0_edges (g : Graph) (h : wf g) :
    (level0 g).edges
      = g.edges.filter (fun e => decide (e.u ∈ reach g ∧ e.v ∈ reach g)) := by
  show level0Sweep (reach g) ((List.range g.knots).reverse) g.edges = _
  rw [level0Sweep_eq_filter]
  apply List.filter_congr
  intro e he
  have hu := (h.2 e he).1
  have hv := (h.2 e he).2
  rw [decide_eq_decide]
  simp only [List.mem_reverse, List.mem_range, hu, hv, true_and]
  constructor
  · intro h1
    constructor
    · by_contra hne; exact h1 (Or.inl hne)
    · by_contra hne; exact h1 (Or.inr hne)
  · intro h1
    rintro (h2 | h2)
    · exact h2 h1.1
    · exact h2 h1.2

lemma wf_level0 (g : Graph) (h : wf g) : wf (level0 g) := by
  refine ⟨h.1, ?_⟩
  intro e he
  rw [level0_edges g h] at he
  exact h.2 e (List.mem_of_mem_filter he)

lemma reach_level0 (g : Graph) (h : wf g) : reach (level0 g) = reach g := by
  have hknots : (level0 g).knots = g.knots := rfl
  have hsource : (level0 g).source = g.source := rfl
  have key : ∀ n, n ≤ g.knots →
      (fun s => trailStep allowAll (level0 g).edges s)^[n] {g.source}
        = (fun s => trailStep allowAll g.edges s)^[n] {g.source} := by
    intro n
    induction n with
    | zero => intro _; rfl
    | succ n ih =>
      intro hn
      rw [Function.iterate_succ_apply', Function.iterate_succ_apply',
        ih (Nat.le_of_succ_le hn)]
      show trailStep allowAll (level0 g).edges _ = _
      rw [level0_edges g h]
      apply trailStep_filter_eq allowAll g.edges (reach_closed g h)
      have hchain := iterate_chain (f := fun s => trailStep allowAll g.edges s)
        (fun s => trailStep_subset allowAll g.edges s)
        (Nat.le_of_succ_le hn) ({g.source} : Finset ℕ)
      exact hchain
  show (fun s => trailStep allowAll (level0 g).edges s)^[(level0 g).knots]
      {(level0 g).source} = _
  rw [hknots, hsource, key g.knots le_rfl]
  rfl

lemma graph_edges_ext (x : Graph) (E : List Edge) (h : E = x.edges) :
    ({ x with edges := E } : Graph) = x := by
  cases x
  simp_all

/-- `level0` is idempotent: the second run finds every remaining edge
endpoint reachable and deletes nothing. -/
lemma level0_idem (g : Graph) (h : wf g) : level0 (level0 g) = level0 g := by
  have h2 : wf (level0 g) := wf_level0 g h
  have hedges : (level0 (level0 g)).edges = (level0 g).edges := by
    rw [level0_edges (level0 g) h2, reach_level0 g h, level0_edges g h,
      List.filter_filter]
    apply List.filter_congr
    intro e _
    simp
  exact graph_edges_ext (level0 g) _ hedges

lemma level0Sweep_sublist (R : Finset ℕ) :
    ∀ (ks : List Nat) (es : List Edge), List.Sublist (level0Sweep R ks es) es := by
  intro ks
  induction ks with
  | nil => intro es; exact List.Sublist.refl es
  | cons k ks ih =>
    intro es
    show List.Sublist (if _ then _ else _) es
    split
    · exact List.Sublist.trans (ih _) (List.filter_sublist es)
    · exact ih es

lemma length_filter_mono {α : Type} (l : List α) (p q : α → Bool)
    (h : ∀ a ∈ l, p a = true → q a = true) :
    (l.filter p).length ≤ (l.filter q).length := by
  induction l with
  | nil => simp
  | cons a l ih =>
    have ih' := ih (fun a ha => h a (List.mem_cons_of_mem _ ha))
    by_cases hp : p a = true
    · rw [List.filter_cons_of_pos hp,
        List.filter_cons_of_pos (h a (List.mem_cons_self _ _) hp)]
      simpa using ih'
    · rw [List.filter_cons_of_neg (by simpa using hp)]
      refine Nat.le_trans ih' ?_
      by_cases hq : q a = true
      · rw [List.filter_cons_of_pos hq]; simp
      · rw [List.filter_cons_of_neg (by simpa using hq)]

lemma edgeCount_level0_le (g : Graph) : edgeCount (level0 g) ≤ edgeCount g :=
  List.Sublist.length_le (level0Sweep_sublist _ _ _)

lemma grad_level0_le (g : Graph) (k : Nat) : grad (level0 g) k ≤ grad g k :=
  List.Sublist.length_le (List.Sublist.filter _ (level0Sweep_sublist _ _ _))

lemma nodeCount_level0_le (g : Graph) : nodeCount (level0 g) ≤ nodeCount g := by
  unfold nodeCount
  show ((List.range g.knots).filter _).length ≤ _
  apply length_filter_mono
  intro k _ hk
  simp only [decide_eq_true_eq] at hk ⊢
  exact Nat.lt_of_lt_of_le hk (grad_level0_le g k)

lemma level0_knots (g : Graph) : (level0 g).knots = g.knots := rfl

lemma level0_stp_type (g : Graph) : (level0 g).stp_type = g.stp_type := rfl

/-- On a graph where every non-isolated node is reachable from the root,
`level0` deletes nothing. -/
lemma level0_of_connected (g : Graph) (h : wf g)
    (hconn : ∀ k, 0 < grad g k → k ∈ reach g) : level0 g = g := by
  have hedges : (level0 g).edges = g.edges := by
    rw [level0_edges g h]
    apply List.filter_eq_self.mpr
    intro e he
    have hu : 0 < grad g e.u := by
      apply List.length_pos.mpr
      intro hnil
      have : e ∈ g.edges.filter (fun f => decide (f.u = e.u ∨ f.v = e.u)) :=
        List.mem_filter.mpr ⟨he, by simp⟩
      rw [hnil] at this
      simp at this
    have hv : 0 < grad g e.v := by
      apply List.length_pos.mpr
      intro hnil
      have : e ∈ g.edges.filter (fun f => decide (f.u = e.v ∨ f.v = e.v)) :=
        List.mem_filter.mpr ⟨he, by simp⟩
      rw [hnil] at this
      simp at this
    exact decide_eq_true ⟨hconn e.u hu, hconn e.v hv⟩
  exact graph_edges_ext g _ hedges

/-! ### Claim C6 -/

/-- **C6**: running the connectivity cleanup `level0` twice in a row on any
graph produces an identical graph the second time: after one call to
`level0`, a second call performs no edge deletion and leaves the graph equal
to its state after the first call. -/
theorem C6_level0_idempotent (g : Graph) (h : wf g) :
    level0 (level0 g) = level0 g :=
  level0_idem g h

/-- Concrete witness for C6: a 4-node graph whose component `{2, 3}` is cut
off from the root `0`. -/
def gW6 : Graph := ⟨4, 0, StpType.spg, [⟨0, 1, 1, 1⟩, ⟨2, 3, 1, 1⟩], [], [], [], []⟩

theorem C6_level0_idempotent_witness :
    wf gW6 ∧ level0 (level0 gW6) = level0 gW6 :=
  ⟨by decide, C6_level0_idempotent gW6 (by decide)⟩

/-! ### The reduction packages and the dispatcher `reduce`
    (reduce.c, lines 640-1326 and 2118-2228)

The variant reduction packages `reduceStp`, `reducePc`, `reduceMw`,
`reduceHc`, `reduceSap`, `reduceNw` drive the orchestrator loops, whose leaf
reduction tests (`reduce_sd`, `reduce_da`, ...) are in translation units
outside the sampled sources.  For the dispatcher-level claims the packages
are therefore abstract parameters; `PkgsSound` is their contract, modelled
from the spec: "every reduction test consumes the graph ... and returns an
elimination count and an offset delta", "node/edge counts are non-increasing
across any single call to `reduce`; `offset` is non-decreasing" and the
`FixedOffset` accumulator is "monotonically non-decreasing across the
pipeline" starting from the `0.0` written at the top of `reduce`.
Each package maps the graph (plus its flag arguments) to the mutated graph
and the offset it adds. -/

structure RedPkgs where
  /-- `reduceStp(scip, g, fixed, minelims, dualascent, nodereplacing, userec)` -/
  stp : Graph → Nat → Bool → Bool → Bool → Graph × ℚ
  /-- `reducePc(scip, edgestate, g, fixed, minelims, advanced, userec, nodereplacing)` -/
  pc : Graph → Nat → Bool → Bool → Bool → Graph × ℚ
  /-- `reduceMw(scip, g, fixed, minelims, advanced, userec)` -/
  mw : Graph → Nat → Bool → Bool → Graph × ℚ
  /-- `reduceHc(scip, g, fixed, minelims)` -/
  hc : Graph → Nat → Graph × ℚ
  /-- `reduceSap(scip, g, fixed, minelims)` -/
  sap : Graph → Nat → Graph × ℚ
  /-- `reduceNw(scip, g, fixed, minelims)` -/
  nw : Graph → Nat → Graph × ℚ

/-- Spec contract of a single package call: node and edge counts do not
increase and the accumulated fixed-cost offset delta is non-negative. -/
def PkgOk (r : Graph → Graph × ℚ) : Prop :=
  ∀ g, nodeCount (r g).1 ≤ nodeCount g ∧ edgeCount (r g).1 ≤ edgeCount g ∧
    0 ≤ (r g).2

def PkgsSound (P : RedPkgs) : Prop :=
  (∀ m a b c, PkgOk (fun g => P.stp g m a b c)) ∧
  (∀ m a b c, PkgOk (fun g => P.pc g m a b c)) ∧
  (∀ m a b, PkgOk (fun g => P.mw g m a b)) ∧
  (∀ m, PkgOk (fun g => P.hc g m)) ∧
  (∀ m, PkgOk (fun g => P.sap g m)) ∧
  (∀ m, PkgOk (fun g => P.nw g m))

/-- Whether `reduce` returns right after the initial cleanup
(reduce.c line 2158: "if no reduction methods available, return"). -/
def earlyType (t : StpType) : Bool :=
  t = StpType.dcstp ∨ t = StpType.rmwcsp ∨ t = StpType.nwptspg ∨ t = StpType.brmwcsp

/-- The level-1/level-2 dispatch of `reduce` (reduce.c lines 2164-2217),
returning the mutated graph and the offset written through the pointer
(which holds `0.0` on entry). -/
def reduceDispatch (P : RedPkgs) (g1 : Graph) (stpt : StpType) (level : Nat)
    (minelims : Nat) (userec : Bool) : Graph × ℚ :=
  if level = 1 then
    if stpt = StpType.pcspg ∨ stpt = StpType.rpcspg then P.pc g1 minelims false false true
    else if stpt = StpType.mwcsp then P.mw g1 minelims false false
    else if stpt = StpType.dhcstp then P.hc g1 minelims
    else if stpt = StpType.sap then P.sap g1 minelims
    else if stpt = StpType.nwspg then P.nw g1 minelims
    else P.stp g1 minelims false true false
  else if level = 2 then
    if stpt = StpType.pcspg ∨ stpt = StpType.rpcspg then P.pc g1 minelims true userec true
    else if stpt = StpType.mwcsp then P.mw g1 minelims true userec
    else if stpt = StpType.dhcstp then P.hc g1 minelims
    else if stpt = StpType.sap then P.sap g1 minelims
    else if stpt = StpType.nwspg then P.nw g1 minelims
    else P.stp g1 minelims true true userec
  else (g1, 0)

/-- The top-level `reduce` (reduce.c lines 2118-2228): write `0.0` to the
offset, run `level0`, return early for the variants without reduction
methods, dispatch on `level` and `stp_type`, and run `level0` again. -/
def reduceM (P : RedPkgs) (g : Graph) (level : Nat) (minelims : Nat)
    (userec : Bool) : Graph × ℚ :=
  let stpt := g.stp_type
  let g1 := level0 g
  if earlyType g1.stp_type then (g1, 0)
  else
    let r := reduceDispatch P g1 stpt level minelims userec
    (level0 r.1, r.2)

lemma reduceDispatch_ok (P : RedPkgs) (hP : PkgsSound P) (g1 : Graph)
    (stpt : StpType) (level minelims : Nat) (userec : Bool) :
    nodeCount (reduceDispatch P g1 stpt level minelims userec).1 ≤ nodeCount g1 ∧
    edgeCount (reduceDispatch P g1 stpt level minelims userec).1 ≤ edgeCount g1 ∧
    0 ≤ (reduceDispatch P g1 stpt level minelims userec).2 := by
  obtain ⟨h1, h2, h3, h4, h5, h6⟩ := hP
  unfold reduceDispatch
  split_ifs
  exacts [h2 _ _ _ _ g1, h3 _ _ _ g1, h4 _ g1, h5 _ g1, h6 _ g1, h1 _ _ _ _ g1,
    h2 _ _ _ _ g1, h3 _ _ _ g1, h4 _ g1, h5 _ g1, h6 _ g1, h1 _ _ _ _ g1,
    ⟨le_refl _, le_refl _, le_refl 0⟩]

/-! ### Claim C1 -/

/-- **C1**: for every graph and every successful call to
`reduce(scip, graph, offset, level, minelims, userec)` — with the leaf
reduction packages satisfying their spec contract `PkgsSound` — the node
count and the edge count of the graph after the call are at most their
values before the call, and the offset written through the pointer (holding
the `0.0` set at entry plus the accumulated fixed cost) is non-negative. -/
theorem C1_reduce_monotone (P : RedPkgs) (hP : PkgsSound P) (g : Graph)
    (level minelims : Nat) (userec : Bool) :
    nodeCount (reduceM P g level minelims userec).1 ≤ nodeCount g ∧
    edgeCount (reduceM P g level minelims userec).1 ≤ edgeCount g ∧
    0 ≤ (reduceM P g level minelims userec).2 := by
  unfold reduceM
  by_cases he : earlyType (level0 g).stp_type = true
  · simp only [he, if_true]
    exact ⟨nodeCount_level0_le g, edgeCount_level0_le g, le_refl 0⟩
  · simp only [he, if_false, Bool.false_eq_true]
    have hd := reduceDispatch_ok P hP (level0 g) g.stp_type level minelims userec
    refine ⟨?_, ?_, hd.2.2⟩
    · exact Nat.le_trans (Nat.le_trans (nodeCount_level0_le _) hd.1)
        (nodeCount_level0_le g)
    · exact Nat.le_trans (Nat.le_trans (edgeCount_level0_le _) hd.2.1)
        (edgeCount_level0_le g)

/-- Trivial instantiation of the reduction packages (no eliminations, no
offset), used to witness the package-contract hypotheses. -/
def idPkgs : RedPkgs :=
  ⟨fun g _ _ _ _ => (g, 0), fun g _ _ _ _ => (g, 0), fun g _ _ _ => (g, 0),
   fun g _ => (g, 0), fun g _ => (g, 0), fun g _ => (g, 0)⟩

lemma idPkgs_sound : PkgsSound idPkgs := by
  refine ⟨fun m a b c g => ?_, fun m a b c g => ?_, fun m a b g => ?_,
    fun m g => ?_, fun m g => ?_, fun m g => ?_⟩ <;>
    exact ⟨le_refl _, le_refl _, le_refl 0⟩

def gW1 : Graph := ⟨3, 0, StpType.spg, [⟨0, 1, 2, 2⟩, ⟨1, 2, 3, 3⟩], [], [], [], []⟩

theorem C1_reduce_monotone_witness :
    PkgsSound idPkgs ∧
      (nodeCount (reduceM idPkgs gW1 2 0 true).1 ≤ nodeCount gW1 ∧
        edgeCount (reduceM idPkgs gW1 2 0 true).1 ≤ edgeCount gW1 ∧
        0 ≤ (reduceM idPkgs gW1 2 0 true).2) :=
  ⟨idPkgs_sound, C1_reduce_monotone idPkgs idPkgs_sound gW1 2 0 true⟩

lemma grad_eq_zero_of_ge (g : Graph) (h : wf g) (k : Nat) (hk : g.knots ≤ k) :
    grad g k = 0 := by
  unfold grad
  rw [List.length_eq_zero]
  apply List.filter_eq_nil_iff.mpr
  intro e he
  have h2 := h.2 e he
  simp only [decide_eq_true_eq]
  rintro (rfl | rfl) <;> omega

/-! ### Claim C2 -/

/-- Concrete refutation graph for C2: the component `{2, 3}` is unreachable
from the root `0`. -/
def gC2 : Graph := ⟨4, 0, StpType.spg, [⟨0, 1, 1, 1⟩, ⟨2, 3, 1, 1⟩], [], [], [], []⟩

/-- **C2, counterexample**: calling `reduce` with `level == 0` is *not* a
no-op: on `gC2` the initial and final `level0` cleanups (reduce.c lines
2150 and 2220), which run at every level, delete the edge `{2, 3}` of the
unreachable component, so the graph comes back changed. -/
theorem C2_counterexample :
    (reduceM idPkgs gC2 0 0 false).1 ≠ gC2 ∧
    (reduceM idPkgs gC2 0 0 false).1.edges = [⟨0, 1, 1, 1⟩] := by
  constructor
  · decide
  · decide

/-- **C2, amended**: with `level == 0` no reduction package is consulted
(the result is the same for every package instantiation and every
`minelims`/`userec` argument), the offset comes back `0.0` and the graph
comes back equal to its connectivity cleanup `level0`; in particular the
call leaves the graph unchanged iff already every non-isolated node is
reachable from the root, and on such graphs it is a true no-op. -/
theorem C2_level0_amended (P P' : RedPkgs) (g : Graph) (minelims m' : Nat)
    (u u' : Bool) :
    reduceM P g 0 minelims u = reduceM P' g 0 m' u' ∧
    (reduceM P g 0 minelims u).2 = 0 ∧
    (wf g → (reduceM P g 0 minelims u).1 = level0 g) ∧
    (wf g → (∀ k, k < g.knots → 0 < grad g k → k ∈ reach g) →
      reduceM P g 0 minelims u = (g, 0)) := by
  have hred : ∀ (Q : RedPkgs) (m : Nat) (w : Bool), reduceM Q g 0 m w =
      if earlyType (level0 g).stp_type then (level0 g, 0)
      else (level0 (level0 g), 0) := by
    intro Q m w
    rfl
  refine ⟨by rw [hred, hred], ?_, ?_, ?_⟩
  · rw [hred]
    split <;> rfl
  · intro hwf
    rw [hred]
    split
    · rfl
    · show (level0 (level0 g), (0 : ℚ)).1 = _
      exact level0_idem g hwf
  · intro hwf hconn
    have hconn' : ∀ k, 0 < grad g k → k ∈ reach g := by
      intro k hk
      by_cases hlt : k < g.knots
      · exact hconn k hlt hk
      · rw [grad_eq_zero_of_ge g hwf k (Nat.le_of_not_lt hlt)] at hk
        exact absurd hk (Nat.lt_irrefl 0)
    have hg := level0_of_connected g hwf hconn'
    rw [hred]
    split
    · rw [hg]
    · rw [hg, hg]

def gW2 : Graph := ⟨2, 0, StpType.spg, [⟨0, 1, 1, 1⟩], [], [], [], []⟩

theorem C2_level0_amended_witness :
    wf gW2 ∧ (∀ k, k < gW2.knots → 0 < grad gW2 k → k ∈ reach gW2) ∧
      reduceM idPkgs gW2 0 0 false = (gW2, 0) :=
  ⟨by decide, by decide,
    (C2_level0_amended idPkgs idPkgs gW2 0 0 false false).2.2.2 (by decide) (by decide)⟩

/-! ### Claim C10 -/

/-- **C10**: for every graph whose variant is `STP_DCSTP`, `STP_RMWCSP`,
`STP_NWPTSPG` or `STP_BRMWCSP`, `reduce` performs only the initial
connectivity cleanup and returns success with offset `0.0`, at every
reduction level: the result does not depend on the reduction packages at
all (no test from the library is run). -/
theorem C10_no_reduction_variants (P P' : RedPkgs) (g : Graph)
    (level minelims m' : Nat) (u u' : Bool)
    (h : g.stp_type = StpType.dcstp ∨ g.stp_type = StpType.rmwcsp ∨
      g.stp_type = StpType.nwptspg ∨ g.stp_type = StpType.brmwcsp) :
    reduceM P g level minelims u = (level0 g, 0) ∧
    reduceM P g level minelims u = reduceM P' g level m' u' := by
  have he : earlyType (level0 g).stp_type = true := by
    show earlyType g.stp_type = true
    unfold earlyType
    rcases h with h | h | h | h <;> simp [h]
  constructor
  · unfold reduceM
    simp only [he, if_true]
  · unfold reduceM
    simp only [he, if_true]

def gW10 : Graph := ⟨4, 0, StpType.dcstp, [⟨0, 1, 1, 1⟩, ⟨2, 3, 1, 1⟩], [], [], [], []⟩

theorem C10_no_reduction_variants_witness :
    gW10.stp_type = StpType.dcstp ∧
      reduceM idPkgs gW10 2 5 true = (level0 gW10, 0) :=
  ⟨rfl, (C10_no_reduction_variants idPkgs idPkgs gW10 2 5 3 true false
    (Or.inl rfl)).1⟩

/-! ### Control skeleton of `redLoopPc` (reduce.c, lines 1566-1848)

The loop-control code of the (R)PC orchestrator is embedded faithfully; the
elimination counts returned by the individual reduction tests (which live
outside the sampled sources) enter as an oracle, one record per executed
loop iteration, as do the data-dependent bits `g->terms > 2`, the success of
`graph_pc_pcmw2rooted` and the infeasibility outcome of `level0RpcRmw`.
`SCIPisStopped` and the time limit are modelled as never firing (the claims
quantify over all inputs, so the adversarial schedule is the one with
unlimited time).  `STP_RED_EXTENSIVE` is `FALSE` (line 35), so every
`|| extensive` disjunct is dropped.  The fields `iters`, `convAttempts`,
`badAttempt`, `convNoSdstar` and `restartedNow` are ghost observers that
record what happened; they drive no branch. -/

structure PcRound where
  sdE : Nat
  sdstarE : Nat
  sdwE : Nat
  sdcE : Nat
  degE : Nat
  bd3E : Nat
  nvslE : Nat
  bredE : Nat
  daE : Nat
  da2E : Nat
  deg2E : Nat
  termsGt2a : Bool
  termsGt2b : Bool
  convOk : Bool
  convInfeas : Bool
deriving DecidableEq

structure PcParams where
  dualascent : Bool
  bred0 : Bool
  tryrpc : Bool
  userec : Bool
  nodereplacing : Bool
  reductbound : Nat
  initRpc : Bool
  initElims : Nat
deriving DecidableEq

structure PcState where
  rerun : Bool
  da : Bool
  sd : Bool
  sdc : Bool
  sdw : Bool
  sdstar : Bool
  bd3 : Bool
  nvsl : Bool
  bred : Bool
  advancedrun : Bool
  rpc : Bool
  err : Bool
  rounds : Nat
  ntotalelims : Nat
  iters : Nat
  convAttempts : Nat
  badAttempt : Bool
  convNoSdstar : Bool
  restartedNow : Bool
deriving DecidableEq

/-- Initial flag assignment of `redLoopPc` (lines 1596-1629). -/
def pcInit (p : PcParams) : PcState :=
  { rerun := true, da := p.dualascent, sd := true, sdc := true, sdw := true,
    sdstar := true, bd3 := p.nodereplacing, nvsl := true, bred := p.bred0,
    advancedrun := p.dualascent, rpc := p.initRpc, err := false,
    rounds := 0, ntotalelims := p.initElims, iters := 0, convAttempts := 0,
    badAttempt := false, convNoSdstar := false, restartedNow := false }

/-- Test phase of one loop body (lines 1656-1761): run each test whose flag
is still set, clear the flag when its elimination count is at most the
reduction bound (for NVSL: half the bound, see `execPc_NVSL`; BD3 runs only
with `dualascent`), accumulate `ntotalelims` and decide `rerun` from the
round total.  The ghost `restartedNow` is reset here and `iters` counts the
body execution. -/
def pcTestPhase (p : PcParams) (o : PcRound) (s : PcState) : PcState :=
  let sdnelims := if s.sd = true then o.sdE else 0
  let sd1 := if s.sd = true ∧ o.sdE ≤ p.reductbound then false else s.sd
  let sdstarnelims := if s.sdstar = true then o.sdstarE else 0
  let sdstar1 := if s.sdstar = true ∧ o.sdstarE ≤ p.reductbound then false else s.sdstar
  let sdwnelims := if s.sdw = true then o.sdwE else 0
  let sdw1 := if s.sdw = true ∧ o.sdwE ≤ p.reductbound then false else s.sdw
  let sdcnelims := if s.sdc = true then o.sdcE else 0
  let sdc1 := if s.sdc = true ∧ o.sdcE ≤ p.reductbound then false else s.sdc
  let bd3nelims := if s.bd3 = true ∧ p.dualascent = true then o.bd3E else 0
  let bd31 := if s.bd3 = true ∧ p.dualascent = true ∧ o.bd3E ≤ p.reductbound then false
    else s.bd3
  let nvslnelims := if s.nvsl = true then o.nvslE else 0
  let nvsl1 := if s.nvsl = true ∧ o.nvslE ≤ p.reductbound / 2 then false else s.nvsl
  let brednelims := if s.bred = true then o.bredE else 0
  let bred1 := if s.bred = true ∧ o.bredE ≤ p.reductbound then false else s.bred
  let danelims := if s.da = true then o.daE else 0
  let da1 := if s.da = true ∧ o.daE ≤ p.reductbound then false else s.da
  let degnelims := o.degE
  let roundsum := degnelims + sdnelims + sdcnelims + bd3nelims + danelims
    + brednelims + nvslnelims + sdwnelims + sdstarnelims
  { s with
    rerun := if roundsum ≤ p.reductbound then false else s.rerun,
    da := da1, sd := sd1, sdc := sdc1, sdw := sdw1, sdstar := sdstar1,
    bd3 := bd31, nvsl := nvsl1, bred := bred1,
    ntotalelims := s.ntotalelims + roundsum,
    iters := s.iters + 1, restartedNow := false }

/-- Advanced dual-ascent re-run (lines 1763-1794), operating on the state
left by the test phase: if the round found too little and an advanced run is
still pending (and the graph still has more than two terminals), run
dual-ascent once more; if the grand total then exceeds the bound, reactivate
the tests (not `sdstar`, not `bred`) and set `rerun` again. -/
def pcAdvPhase (p : PcParams) (o : PcRound) (s : PcState) : PcState :=
  let adv := (¬ s.rerun = true) ∧ s.advancedrun = true ∧ o.termsGt2a = true
  let ntot2 := if adv then s.ntotalelims + o.da2E + o.deg2E else s.ntotalelims
  let advRestart := adv ∧ p.reductbound < ntot2
  { s with
    advancedrun := if adv then false else s.advancedrun,
    ntotalelims := ntot2,
    rerun := if advRestart then true else s.rerun,
    da := if advRestart then p.dualascent else s.da,
    sd := if advRestart then true else s.sd,
    sdc := if advRestart then true else s.sdc,
    sdw := if advRestart then true else s.sdw,
    nvsl := if advRestart then true else s.nvsl,
    bd3 := if advRestart then p.nodereplacing else s.bd3,
    restartedNow := s.restartedNow ∨ advRestart }

/-- Conversion to rooted PC (lines 1796-1826), operating on the state left
by the advanced phase (`rounds` is untouched by the earlier phases): attempt
`graph_pc_pcmw2rooted` when the round found too little or this is the last
round, the graph is not already rooted and `tryrpc` holds; on success run
`level0RpcRmw` (whose infeasibility error aborts the routine), reactivate
the tests (not `sdstar`!) and reset `rounds` to `1`.  The trailing `+ 1` is
the `rounds++` of the `for` statement. -/
def pcConvPhase (p : PcParams) (o : PcRound) (s : PcState) : PcState :=
  let tryconv := (¬ s.rerun = true ∨ s.rounds = 14) ∧ ¬ s.rpc = true ∧
    p.tryrpc = true ∧ o.termsGt2b = true
  let convSuccess := tryconv ∧ o.convOk = true
  { s with
    rpc := if convSuccess then true else s.rpc,
    err := if convSuccess ∧ o.convInfeas = true then true else s.err,
    rerun := if convSuccess then true else s.rerun,
    da := if convSuccess then p.dualascent else s.da,
    sd := if convSuccess then true else s.sd,
    sdc := if convSuccess then true else s.sdc,
    sdw := if convSuccess then true else s.sdw,
    nvsl := if convSuccess then true else s.nvsl,
    bd3 := if convSuccess then p.nodereplacing else s.bd3,
    advancedrun := if convSuccess then p.dualascent else s.advancedrun,
    rounds := (if convSuccess then 1 else s.rounds) + 1,
    convAttempts := if tryconv then s.convAttempts + 1 else s.convAttempts,
    badAttempt := s.badAttempt ∨ (tryconv ∧ s.rerun = true),
    convNoSdstar := s.convNoSdstar ∨ (convSuccess ∧ s.sdstar = false),
    restartedNow := s.restartedNow ∨ convSuccess }

/-- One body execution of the main loop of `redLoopPc` (lines 1640-1827). -/
def pcIter (p : PcParams) (o : PcRound) (s : PcState) : PcState :=
  pcConvPhase p o (pcAdvPhase p o (pcTestPhase p o s))

/-- Guard of the main loop (line 1640, `STP_RED_MAXNROUNDS = 15`); an
error return of `level0RpcRmw` after a successful conversion aborts the
whole routine, which is modelled by the `err` conjunct. -/
def pcLoopCond (s : PcState) : Prop :=
  s.rounds < 15 ∧ s.rerun = true ∧ s.err = false

instance (s : PcState) : Decidable (pcLoopCond s) := by
  unfold pcLoopCond; infer_instance

def pcLoop (p : PcParams) (o : Nat → PcRound) : Nat → PcState → PcState
  | 0, s => s
  | fuel + 1, s =>
    if pcLoopCond s then pcLoop p o fuel (pcIter p (o s.iters) s) else s

/-- The full main loop of `redLoopPc`; 29 units of fuel are enough for the
loop to reach its exit condition on every input (proved below). -/
def pcRun (p : PcParams) (o : Nat → PcRound) : PcState :=
  pcLoop p o 29 (pcInit p)


lemma pcIter_iters (p : PcParams) (o : PcRound) (s : PcState) :
    (pcIter p o s).iters = s.iters + 1 := rfl

lemma pcConvPhase_rounds_rpc (p : PcParams) (o : PcRound) (t : PcState) :
    ((pcConvPhase p o t).rounds = t.rounds + 1 ∧ (pcConvPhase p o t).rpc = t.rpc) ∨
    ((pcConvPhase p o t).rounds = 2 ∧ (pcConvPhase p o t).rpc = true ∧
      t.rpc = false) := by
  unfold pcConvPhase
  dsimp only
  split
  · rename_i h
    right
    refine ⟨rfl, rfl, ?_⟩
    simpa using h.1.2.1
  · left
    exact ⟨rfl, rfl⟩

lemma pcIter_rounds_rpc (p : PcParams) (o : PcRound) (s : PcState) :
    ((pcIter p o s).rounds = s.rounds + 1 ∧ (pcIter p o s).rpc = s.rpc) ∨
    ((pcIter p o s).rounds = 2 ∧ (pcIter p o s).rpc = true ∧ s.rpc = false) := by
  have h := pcConvPhase_rounds_rpc p o (pcAdvPhase p o (pcTestPhase p o s))
  have h1 : (pcAdvPhase p o (pcTestPhase p o s)).rounds = s.rounds := rfl
  have h2 : (pcAdvPhase p o (pcTestPhase p o s)).rpc = s.rpc := rfl
  rw [h1, h2] at h
  exact h

/-- Termination measure of the `redLoopPc` loop: the conversion can reset
`rounds` to `1` at most once (it also sets `rpc`), so at most
`13 + (15 - rounds)` further iterations are possible. -/
def pcMeasure (s : PcState) : Nat :=
  (if s.rpc = true then 0 else 13) + (15 - s.rounds)

lemma pcIter_measure_lt (p : PcParams) (o : PcRound) (s : PcState)
    (h : s.rounds < 15) : pcMeasure (pcIter p o s) < pcMeasure s := by
  rcases pcIter_rounds_rpc p o s with ⟨h1, h2⟩ | ⟨h1, h2, h3⟩
  · unfold pcMeasure
    rw [h1, h2]
    by_cases hr : s.rpc = true <;> simp only [hr, if_true, if_false] <;> omega
  · unfold pcMeasure
    rw [h1, h2, h3]
    simp only [if_true, Bool.false_eq_true, if_false]
    omega

lemma pcLoop_iters_le (p : PcParams) (o : Nat → PcRound) :
    ∀ (fuel : Nat) (s : PcState),
      (pcLoop p o fuel s).iters ≤ s.iters + pcMeasure s := by
  intro fuel
  induction fuel with
  | zero => intro s; simp [pcLoop]
  | succ fuel ih =>
    intro s
    rw [pcLoop]
    split
    · rename_i hc
      have hlt := pcIter_measure_lt p (o s.iters) s hc.1
      have h2 := ih (pcIter p (o s.iters) s)
      rw [pcIter_iters] at h2
      omega
    · omega

lemma pcLoop_exits (p : PcParams) (o : Nat → PcRound) :
    ∀ (fuel : Nat) (s : PcState), pcMeasure s < fuel →
      ¬ pcLoopCond (pcLoop p o fuel s) := by
  intro fuel
  induction fuel with
  | zero => intro s h; omega
  | succ fuel ih =>
    intro s h
    rw [pcLoop]
    split
    · rename_i hc
      exact ih _ (by have := pcIter_measure_lt p (o s.iters) s hc.1; omega)
    · assumption

/-! ### Control skeleton of `redLoopMw` (reduce.c, lines 1329-1563)

Same modelling conventions as for `redLoopPc`; `STP_RED_EXTENSIVE` is
`FALSE` and the deadline never fires.  The conversion to rooted MWCS
(line 1557) happens *after* the main loop and does not interact with the
round counter. -/

structure MwRound where
  ansE : Nat
  ansadE : Nat
  daE : Nat
  nnpE : Nat
  chain2aE : Nat
  npvE : Nat
  chain2bE : Nat
  ansad2E : Nat
  ansad2degE : Nat
  bredE : Nat
  da2E : Nat
  termsGt2 : Bool
deriving DecidableEq

structure MwParams where
  advanced0 : Bool
  bred0 : Bool
  userec0 : Bool
  redbound : Nat
deriving DecidableEq

structure MwState where
  rerun : Bool
  da : Bool
  ans : Bool
  nnp : Bool
  npv : Bool
  ansad : Bool
  ansad2 : Bool
  chain2 : Bool
  bred : Bool
  advanced : Bool
  userec : Bool
  rounds : Nat
  iters : Nat
  restartedNow : Bool
deriving DecidableEq

/-- Initial flag assignment of `redLoopMw` (lines 1365-1382). -/
def mwInit (p : MwParams) : MwState :=
  { rerun := true, da := p.advanced0, ans := true, nnp := true, npv := true,
    ansad := true, ansad2 := true, chain2 := true, bred := p.bred0,
    advanced := p.advanced0, userec := p.userec0, rounds := 0, iters := 0,
    restartedNow := false }

/-- Test phase of one body of the `redLoopMw` round loop (lines 1398-1518).
The first `chain2` call (limit 500) runs behind the *updated* `nnp` flag
(line 1459), the second (limit 300) behind the updated `chain2` flag
(line 1482), and the second overwrites the `chain2elims` variable.  When
`ansAdv2` is above the bound, `reduce_simple_mw` overwrites `ansad2elims`
with its own count (line 1501), modelled by the oracle field `ansad2degE`.
`degelims` is not part of the round total (line 1517). -/
def mwTestPhase (p : MwParams) (o : MwRound) (s : MwState) : MwState :=
  let anselims := if s.ans = true then o.ansE else 0
  let ans1 := if s.ans = true ∧ o.ansE ≤ p.redbound then false else s.ans
  let ansadelims := if s.ansad = true then o.ansadE else 0
  let ansad1 := if s.ansad = true ∧ o.ansadE ≤ p.redbound then false else s.ansad
  let daelims := if s.da = true then o.daE else 0
  let da1 := if s.da = true ∧ o.daE ≤ 2 * p.redbound then false else s.da
  let nnpelims := if s.nnp = true then o.nnpE else 0
  let nnp1 := if s.nnp = true ∧ o.nnpE ≤ p.redbound then false else s.nnp
  let chain21 := if nnp1 = true ∧ o.chain2aE ≤ p.redbound then false else s.chain2
  let npvelims := if s.npv = true then o.npvE else 0
  let npv1 := if s.npv = true ∧ o.npvE ≤ p.redbound then false else s.npv
  let chain22 := if chain21 = true ∧ o.chain2bE ≤ p.redbound then false else chain21
  let chain2elims := if chain21 = true then o.chain2bE
    else if nnp1 = true then o.chain2aE else 0
  let ansad2elims := if s.ansad2 = true then
    (if o.ansad2E ≤ p.redbound then o.ansad2E else o.ansad2degE) else 0
  let ansad21 := if s.ansad2 = true ∧ o.ansad2E ≤ p.redbound then false else s.ansad2
  let bredelims := if s.bred = true then o.bredE else 0
  let bred1 := if s.bred = true ∧ o.bredE ≤ p.redbound then false else s.bred
  let roundsum := anselims + nnpelims + chain2elims + bredelims + npvelims
    + ansadelims + ansad2elims + daelims
  { s with
    rerun := if roundsum ≤ p.redbound then false else s.rerun,
    da := da1, ans := ans1, nnp := nnp1, npv := npv1, ansad := ansad1,
    ansad2 := ansad21, chain2 := chain22, bred := bred1,
    iters := s.iters + 1, restartedNow := false }

/-- Advanced re-run block of `redLoopMw` (lines 1520-1547): run dual-ascent
once more, clear `userec`, and if it found at least `redbound` eliminations
reactivate the tests (not `da`, not `bred`), clear `advanced` and set
`rerun`; then the `rounds++` of the `for` statement. -/
def mwAdvPhase (p : MwParams) (o : MwRound) (s : MwState) : MwState :=
  let adv := (¬ s.rerun = true) ∧ s.advanced = true ∧ o.termsGt2 = true
  let advRestart := adv ∧ p.redbound ≤ o.da2E
  { s with
    userec := if adv then false else s.userec,
    ans := if advRestart then true else s.ans,
    nnp := if advRestart then true else s.nnp,
    npv := if advRestart then true else s.npv,
    ansad := if advRestart then true else s.ansad,
    ansad2 := if advRestart then true else s.ansad2,
    chain2 := if advRestart then true else s.chain2,
    rerun := if advRestart then true else s.rerun,
    advanced := if advRestart then false else s.advanced,
    rounds := s.rounds + 1,
    restartedNow := s.restartedNow ∨ advRestart }

/-- One body execution of the round loop of `redLoopMw` (lines 1398-1548). -/
def mwIter (p : MwParams) (o : MwRound) (s : MwState) : MwState :=
  mwAdvPhase p o (mwTestPhase p o s)

/-- Guard of the round loop (line 1398, `STP_RED_MAXNROUNDS = 15`). -/
def mwLoopCond (s : MwState) : Prop := s.rounds < 15 ∧ s.rerun = true

instance (s : MwState) : Decidable (mwLoopCond s) := by
  unfold mwLoopCond; infer_instance

def mwLoop (p : MwParams) (o : Nat → MwRound) : Nat → MwState → MwState
  | 0, s => s
  | fuel + 1, s =>
    if mwLoopCond s then mwLoop p o fuel (mwIter p (o s.iters) s) else s

def mwRun (p : MwParams) (o : Nat → MwRound) : MwState :=
  mwLoop p o 15 (mwInit p)

lemma mwIter_rounds (p : MwParams) (o : MwRound) (s : MwState) :
    (mwIter p o s).rounds = s.rounds + 1 := rfl

lemma mwIter_iters (p : MwParams) (o : MwRound) (s : MwState) :
    (mwIter p o s).iters = s.iters + 1 := rfl

lemma mwLoop_iters_le (p : MwParams) (o : Nat → MwRound) :
    ∀ (fuel : Nat) (s : MwState),
      (mwLoop p o fuel s).iters ≤ s.iters + (15 - s.rounds) := by
  intro fuel
  induction fuel with
  | zero => intro s; simp [mwLoop]
  | succ fuel ih =>
    intro s
    rw [mwLoop]
    split
    · rename_i hc
      have h2 := ih (mwIter p (o s.iters) s)
      rw [mwIter_iters, mwIter_rounds] at h2
      have hr := hc.1
      omega
    · omega

lemma mwLoop_exits (p : MwParams) (o : Nat → MwRound) :
    ∀ (fuel : Nat) (s : MwState), 15 - s.rounds ≤ fuel →
      ¬ mwLoopCond (mwLoop p o fuel s) := by
  intro fuel
  induction fuel with
  | zero =>
    intro s h
    rw [mwLoop]
    unfold mwLoopCond
    omega
  | succ fuel ih =>
    intro s h
    rw [mwLoop]
    split
    · rename_i hc
      refine ih _ ?_
      rw [mwIter_rounds]
      have := hc.1
      omega
    · assumption

/-! ### Control skeleton of the inner loop of `redLoopStp`
    (reduce.c, lines 1910-2071)

The inner reduction loop `while( rerun && !SCIPisStopped(scip) )` of
`redLoopStp` carries *no* round counter in its guard: `inner_rounds` is only
read by the restart rule.  As before the elimination counts are an oracle
and the deadline never fires. -/

structure StpRound where
  leE : Nat
  sdE : Nat
  sdcE : Nat
  bd3E : Nat
  nvslE : Nat
  daE : Nat
  bredE : Nat
deriving DecidableEq

structure StpParams where
  dualascent : Bool
  bred0 : Bool
  nodereplacing : Bool
  fullreduce : Bool
  reductbound : Nat
deriving DecidableEq

structure StpState where
  le : Bool
  sd : Bool
  sdc : Bool
  bd3 : Bool
  nvsl : Bool
  da : Bool
  bred : Bool
  rerun : Bool
  innerRounds : Nat
  innerRestarts : Nat
  iters : Nat
  restartedNow : Bool
deriving DecidableEq

/-- Initial flag assignment of `redLoopStp` (lines 1881-1888). -/
def stpInit (p : StpParams) : StpState :=
  { le := true, sd := true, sdc := true, bd3 := p.nodereplacing,
    nvsl := p.nodereplacing, da := p.dualascent, bred := p.bred0,
    rerun := true, innerRounds := 0, innerRestarts := 0, iters := 0,
    restartedNow := false }

/-- Test phase of one body of the inner loop (lines 1918-2044): each test
clears its flag at `reductbound` eliminations (`da` at
`STP_RED_EXFACTOR * reductbound` with `STP_RED_EXFACTOR = 2`; `bred` runs
only with `nodereplacing`).  `degtnelims` is not part of the total
(line 2046). -/
def stpTestPhase (p : StpParams) (o : StpRound) (s : StpState) : StpState :=
  let lenelims := if s.le = true then o.leE else 0
  let le1 := if s.le = true ∧ o.leE ≤ p.reductbound then false else s.le
  let sdnelims := if s.sd = true then o.sdE else 0
  let sd1 := if s.sd = true ∧ o.sdE ≤ p.reductbound then false else s.sd
  let sdcnelims := if s.sdc = true then o.sdcE else 0
  let sdc1 := if s.sdc = true ∧ o.sdcE ≤ p.reductbound then false else s.sdc
  let bd3nelims := if s.bd3 = true then o.bd3E else 0
  let bd31 := if s.bd3 = true ∧ o.bd3E ≤ p.reductbound then false else s.bd3
  let nvslnelims := if s.nvsl = true then o.nvslE else 0
  let nvsl1 := if s.nvsl = true ∧ o.nvslE ≤ p.reductbound then false else s.nvsl
  let danelims := if s.da = true then o.daE else 0
  let da1 := if s.da = true ∧ o.daE ≤ 2 * p.reductbound then false else s.da
  let brednelims := if s.bred = true ∧ p.nodereplacing = true then o.bredE else 0
  let bred1 := if s.bred = true ∧ p.nodereplacing = true ∧ o.bredE ≤ p.reductbound
    then false else s.bred
  let roundsum := danelims + sdnelims + bd3nelims + nvslnelims + lenelims
    + brednelims + sdcnelims
  { s with
    le := le1, sd := sd1, sdc := sdc1, bd3 := bd31, nvsl := nvsl1,
    da := da1, bred := bred1, iters := s.iters + 1, restartedNow := false,
    rerun := if roundsum ≤ 2 * p.reductbound ∧
        ¬(0 < s.innerRounds ∧ p.fullreduce = true ∧ s.innerRestarts = 0)
      then false else s.rerun,
    innerRestarts := if roundsum ≤ 2 * p.reductbound ∧
        (0 < s.innerRounds ∧ p.fullreduce = true ∧ s.innerRestarts = 0)
      then s.innerRestarts + 1 else s.innerRestarts,
    innerRounds := s.innerRounds + 1 }

/-- Restart rule of the inner loop (lines 2046-2065): on a weak round,
either restart once (full reduce, not the first round, no restart yet) by
reactivating every test, or clear `rerun`.  The flag updates of the restart
are split out here so that the phase acts on the output of the test
phase. -/
def stpRestartPhase (p : StpParams) (s : StpState) (restarted : Bool) : StpState :=
  if restarted = true then
    { s with
      le := true, sd := true, sdc := true, da := true,
      bd3 := p.nodereplacing, nvsl := p.nodereplacing, restartedNow := true }
  else s

def stpInnerIter (p : StpParams) (o : StpRound) (s : StpState) : StpState :=
  let t := stpTestPhase p o s
  stpRestartPhase p t (decide (s.innerRestarts < t.innerRestarts))

def stpInnerLoop (p : StpParams) (o : Nat → StpRound) : Nat → StpState → StpState
  | 0, s => s
  | fuel + 1, s =>
    if s.rerun = true then stpInnerLoop p o fuel (stpInnerIter p (o s.iters) s)
    else s

/-! ### Claim C3 -/

/-- Adversarial schedule for `redLoopPc`: every test keeps eliminating
above the bound, the graph keeps more than two terminals, and the rooted
conversion succeeds (feasibly) when attempted. -/
def pC3 : PcParams :=
  { dualascent := false, bred0 := false, tryrpc := true, userec := false,
    nodereplacing := false, reductbound := 1, initRpc := false, initElims := 0 }

def oC3 : Nat → PcRound := fun _ =>
  { sdE := 100, sdstarE := 100, sdwE := 100, sdcE := 100, degE := 0,
    bd3E := 0, nvslE := 100, bredE := 0, daE := 0, da2E := 0, deg2E := 0,
    termsGt2a := false, termsGt2b := true, convOk := true, convInfeas := false }

/-- **C3, counterexample**: the main loop of `redLoopPc` does *not*
terminate within `STP_RED_MAXNROUNDS = 15` rounds on every input: when the
rooted conversion succeeds in the last round, `rounds` is reset to `1`
(reduce.c line 1822) and under the schedule `oC3` the loop executes 28
iterations before its guard fails. -/
theorem C3_counterexample :
    (pcRun pC3 oC3).iters = 28 ∧ ¬ (pcRun pC3 oC3).iters ≤ 15 := by
  constructor
  · decide
  · decide

/-- Adversarial schedule for the *inner* loop of `redLoopStp`: with the
cheap tests eliminating above the bound every round, the loop guard
`while( rerun && !SCIPisStopped(scip) )` — which carries no round counter —
is still true after 20 iterations. -/
def pStpC3 : StpParams :=
  { dualascent := false, bred0 := false, nodereplacing := false,
    fullreduce := false, reductbound := 1 }

def oStpC3 : Nat → StpRound := fun _ =>
  { leE := 100, sdE := 100, sdcE := 100, bd3E := 0, nvslE := 0, daE := 0,
    bredE := 0 }

/-- **C3, amended**: the round loop of `redLoopMw` always terminates within
`STP_RED_MAXNROUNDS = 15` iterations; the round loop of `redLoopPc` always
terminates within 28 iterations (15 plus the up-to-13 extra rounds bought
by the single possible `rounds = 1` reset of a successful rooted
conversion); and the inner fixpoint loop of `redLoopStp` is not bounded by
the round count at all — it runs for as long as the tests keep eliminating
above the threshold (here: 20 straight iterations with `rerun` still
set). -/
theorem C3_round_bounds_amended :
    (∀ (p : MwParams) (o : Nat → MwRound),
      (mwRun p o).iters ≤ 15 ∧ ¬ mwLoopCond (mwRun p o)) ∧
    (∀ (p : PcParams) (o : Nat → PcRound),
      (pcRun p o).iters ≤ 28 ∧ ¬ pcLoopCond (pcRun p o)) ∧
    ((stpInnerLoop pStpC3 oStpC3 20 (stpInit pStpC3)).iters = 20 ∧
      (stpInnerLoop pStpC3 oStpC3 20 (stpInit pStpC3)).rerun = true) := by
  refine ⟨?_, ?_, by decide, by decide⟩
  · intro p o
    constructor
    · have h := mwLoop_iters_le p o 15 (mwInit p)
      have hi : (mwInit p).iters = 0 := rfl
      have hr : (mwInit p).rounds = 0 := rfl
      rw [hi, hr] at h
      exact Nat.le_trans h (by omega)
    · exact mwLoop_exits p o 15 (mwInit p) (by show 15 - (0 : Nat) ≤ 15; omega)
  · intro p o
    have hm : pcMeasure (pcInit p) ≤ 28 := by
      unfold pcMeasure pcInit
      dsimp only
      split <;> omega
    constructor
    · show (pcLoop p o 29 (pcInit p)).iters ≤ 28
      have h := pcLoop_iters_le p o 29 (pcInit p)
      have hi : (pcInit p).iters = 0 := rfl
      rw [hi] at h
      omega
    · exact pcLoop_exits p o 29 (pcInit p) (by omega)

/-! ### Claim C8 -/

/-- Loop invariant for the conversion attempts of `redLoopPc`: at most one
attempt has happened, and after a *failed* attempt the loop guard is
already false. -/
def pcInv (s : PcState) : Prop :=
  s.convAttempts ≤ 1 ∧
    (s.convAttempts = 1 → s.rpc = false → ¬ pcLoopCond s)

lemma pcConvPhase_inv (p : PcParams) (o : PcRound) (t : PcState)
    (hA : t.convAttempts ≤ 1) (hB : t.convAttempts = 1 → t.rpc = true) :
    (pcConvPhase p o t).convAttempts ≤ 1 ∧
    ((pcConvPhase p o t).convAttempts = 1 → (pcConvPhase p o t).rpc = false →
      ¬ pcLoopCond (pcConvPhase p o t)) := by
  unfold pcConvPhase pcLoopCond
  dsimp only
  by_cases htry : (¬ t.rerun = true ∨ t.rounds = 14) ∧ ¬ t.rpc = true ∧
      p.tryrpc = true ∧ o.termsGt2b = true
  · have ht0 : t.convAttempts = 0 := by
      rcases Nat.lt_or_ge t.convAttempts 1 with h | h
      · omega
      · have h1 : t.convAttempts = 1 := by omega
        exact absurd (hB h1) htry.2.1
    by_cases hok : o.convOk = true
    · have hcs : ((¬ t.rerun = true ∨ t.rounds = 14) ∧ ¬ t.rpc = true ∧
          p.tryrpc = true ∧ o.termsGt2b = true) ∧ o.convOk = true := ⟨htry, hok⟩
      simp only [if_pos htry, if_pos hcs]
      exact ⟨by omega, fun _ hrpc => Bool.noConfusion hrpc⟩
    · have hcs : ¬ (((¬ t.rerun = true ∨ t.rounds = 14) ∧ ¬ t.rpc = true ∧
          p.tryrpc = true ∧ o.termsGt2b = true) ∧ o.convOk = true) :=
        fun h => hok h.2
      have hc3 : ¬ ((((¬ t.rerun = true ∨ t.rounds = 14) ∧ ¬ t.rpc = true ∧
          p.tryrpc = true ∧ o.termsGt2b = true) ∧ o.convOk = true) ∧
          o.convInfeas = true) := fun h => hcs h.1
      simp only [if_pos htry, if_neg hcs, if_neg hc3]
      refine ⟨by omega, fun _ _ => ?_⟩
      rintro ⟨hr, hre, _⟩
      rcases htry.1 with hnr | h14
      · exact hnr hre
      · omega
  · have hcs : ¬ (((¬ t.rerun = true ∨ t.rounds = 14) ∧ ¬ t.rpc = true ∧
        p.tryrpc = true ∧ o.termsGt2b = true) ∧ o.convOk = true) :=
      fun h => htry h.1
    have hc3 : ¬ ((((¬ t.rerun = true ∨ t.rounds = 14) ∧ ¬ t.rpc = true ∧
        p.tryrpc = true ∧ o.termsGt2b = true) ∧ o.convOk = true) ∧
        o.convInfeas = true) := fun h => htry h.1.1
    simp only [if_neg htry, if_neg hcs, if_neg hc3]
    refine ⟨hA, fun h1 hrpc => ?_⟩
    rw [hB h1] at hrpc
    exact Bool.noConfusion hrpc

lemma pcIter_inv (p : PcParams) (o : PcRound) (s : PcState)
    (hcond : pcLoopCond s) (hinv : pcInv s) : pcInv (pcIter p o s) := by
  have hB : s.convAttempts = 1 → s.rpc = true := by
    intro h1
    by_contra h2
    exact hinv.2 h1 (by simpa using h2) hcond
  exact pcConvPhase_inv p o (pcAdvPhase p o (pcTestPhase p o s)) hinv.1 hB

lemma pcLoop_inv (p : PcParams) (o : Nat → PcRound) :
    ∀ (fuel : Nat) (s : PcState), pcInv s → pcInv (pcLoop p o fuel s) := by
  intro fuel
  induction fuel with
  | zero => intro s h; simpa [pcLoop] using h
  | succ fuel ih =>
    intro s h
    rw [pcLoop]
    split
    · rename_i hc
      exact ih _ (pcIter_inv p (o s.iters) s hc h)
    · exact h

lemma pcConvPhase_badAttempt (p : PcParams) (o : PcRound) (t : PcState)
    (h : (pcConvPhase p o t).badAttempt = true) :
    t.badAttempt = true ∨ t.rounds = 14 := by
  unfold pcConvPhase at h
  dsimp only at h
  simp only [decide_eq_true_eq] at h
  rcases h with h | h
  · exact Or.inl h
  · rcases h.1.1 with hnr | h14
    · exact absurd h.2 hnr
    · exact Or.inr h14

lemma pcTestPhase_sdstar (p : PcParams) (o : PcRound) (s : PcState)
    (h : (pcTestPhase p o s).sdstar = true) : s.sdstar = true := by
  unfold pcTestPhase at h
  dsimp only at h
  split at h
  · exact Bool.noConfusion h
  · exact h

lemma pcConvPhase_success (p : PcParams) (o : PcRound) (t : PcState)
    (h0 : t.rpc = false) (h : (pcConvPhase p o t).rpc = true) :
    (pcConvPhase p o t).rerun = true ∧ (pcConvPhase p o t).sd = true ∧
    (pcConvPhase p o t).sdc = true ∧ (pcConvPhase p o t).sdw = true ∧
    (pcConvPhase p o t).nvsl = true ∧ (pcConvPhase p o t).da = p.dualascent ∧
    (pcConvPhase p o t).bd3 = p.nodereplacing ∧
    (pcConvPhase p o t).advancedrun = p.dualascent ∧
    (pcConvPhase p o t).sdstar = t.sdstar := by
  unfold pcConvPhase at *
  dsimp only at *
  by_cases hcs : ((¬ t.rerun = true ∨ t.rounds = 14) ∧ ¬ t.rpc = true ∧
      p.tryrpc = true ∧ o.termsGt2b = true) ∧ o.convOk = true
  · simp only [if_pos hcs]
    simp
  · rw [if_neg hcs] at h
    rw [h0] at h
    exact Bool.noConfusion h

/-- Adversarial schedule for C8: `sdstar` dies in the first round (0
eliminations), everything else keeps eliminating, and the rooted conversion
is attempted — successfully — in the *last* round while `rerun` is still
true. -/
def oC8 : Nat → PcRound := fun i =>
  if i = 0 then
    { sdE := 100, sdstarE := 0, sdwE := 100, sdcE := 100, degE := 0,
      bd3E := 0, nvslE := 100, bredE := 0, daE := 0, da2E := 0, deg2E := 0,
      termsGt2a := false, termsGt2b := true, convOk := true, convInfeas := false }
  else
    { sdE := 100, sdstarE := 100, sdwE := 100, sdcE := 100, degE := 0,
      bd3E := 0, nvslE := 100, bredE := 0, daE := 0, da2E := 0, deg2E := 0,
      termsGt2a := false, termsGt2b := true, convOk := true, convInfeas := false }

def pC8 : PcParams :=
  { dualascent := false, bred0 := false, tryrpc := true, userec := false,
    nodereplacing := false, reductbound := 1, initRpc := false, initElims := 0 }

/-- **C8, counterexample**: under the schedule `oC8` the conversion
`graph_pc_pcmw2rooted` is attempted (and succeeds) in an iteration in which
the round's `rerun` flag is still *true* (the `rounds == 14` disjunct of
reduce.c line 1802), and after the successful conversion the `sdstar` test
remains deactivated — so neither "only after the rerun flag has become
false" nor "all tests are reactivated" holds as stated. -/
theorem C8_counterexample :
    (pcRun pC8 oC8).badAttempt = true ∧
    (pcRun pC8 oC8).convNoSdstar = true := by
  constructor
  · decide
  · decide

/-- **C8, amended**: within one invocation of `redLoopPc` the conversion is
attempted at most once; an attempt made while `rerun` is still true can
only happen in the final round (`rounds == 14`); when the conversion
succeeds, the loop continues with `rerun` set and the tests `sd`, `sdc`,
`sdw`, `nvsl` reactivated (`da`/`bd3` according to their
`dualascent`/`nodereplacing` gates) — but `sdstar` is never reactivated
within an iteration. -/
theorem C8_conversion_amended :
    (∀ (p : PcParams) (o : Nat → PcRound), (pcRun p o).convAttempts ≤ 1) ∧
    (∀ (p : PcParams) (o : PcRound) (s : PcState),
      (pcIter p o s).badAttempt = true → s.badAttempt = true ∨ s.rounds = 14) ∧
    (∀ (p : PcParams) (o : PcRound) (s : PcState),
      (pcIter p o s).sdstar = true → s.sdstar = true) ∧
    (∀ (p : PcParams) (o : PcRound) (s : PcState), s.rpc = false →
      (pcIter p o s).rpc = true →
      (pcIter p o s).rerun = true ∧ (pcIter p o s).sd = true ∧
      (pcIter p o s).sdc = true ∧ (pcIter p o s).sdw = true ∧
      (pcIter p o s).nvsl = true ∧ (pcIter p o s).da = p.dualascent ∧
      (pcIter p o s).bd3 = p.nodereplacing ∧
      (pcIter p o s).advancedrun = p.dualascent) := by
  refine ⟨?_, ?_, ?_, ?_⟩
  · intro p o
    have h0 : pcInv (pcInit p) := by
      constructor
      · show (0 : Nat) ≤ 1
        omega
      · intro h
        exact absurd h (by simp [pcInit])
    exact (pcLoop_inv p o 29 (pcInit p) h0).1
  · intro p o s h
    exact pcConvPhase_badAttempt p o (pcAdvPhase p o (pcTestPhase p o s)) h
  · intro p o s h
    exact pcTestPhase_sdstar p o s h
  · intro p o s h0 h
    have hres := pcConvPhase_success p o (pcAdvPhase p o (pcTestPhase p o s)) h0 h
    exact ⟨hres.1, hres.2.1, hres.2.2.1, hres.2.2.2.1, hres.2.2.2.2.1,
      hres.2.2.2.2.2.1, hres.2.2.2.2.2.2.1, hres.2.2.2.2.2.2.2.1⟩

/-- Concrete state and round record for the C8 witness: a state with
`rerun` already false at the conversion point, where the attempt succeeds. -/
def sW8 : PcState :=
  { rerun := false, da := false, sd := false, sdc := false, sdw := false,
    sdstar := false, bd3 := false, nvsl := false, bred := false,
    advancedrun := false, rpc := false, err := false, rounds := 3,
    ntotalelims := 0, iters := 5, convAttempts := 0, badAttempt := false,
    convNoSdstar := false, restartedNow := false }

def oW8 : PcRound :=
  { sdE := 0, sdstarE := 0, sdwE := 0, sdcE := 0, degE := 0, bd3E := 0,
    nvslE := 0, bredE := 0, daE := 0, da2E := 0, deg2E := 0,
    termsGt2a := false, termsGt2b := true, convOk := true, convInfeas := false }

theorem C8_conversion_amended_witness :
    (pcRun pC8 oC8).convAttempts ≤ 1 ∧
    (sW8.rpc = false ∧ (pcIter pC8 oW8 sW8).rpc = true ∧
      (pcIter pC8 oW8 sW8).rerun = true ∧ (pcIter pC8 oW8 sW8).sd = true) := by
  refine ⟨C8_conversion_amended.1 pC8 oC8, rfl, ?_, ?_, ?_⟩
  · decide
  · exact (C8_conversion_amended.2.2.2 pC8 oW8 sW8 rfl (by decide)).1
  · exact (C8_conversion_amended.2.2.2 pC8 oW8 sW8 rfl (by decide)).2.1

/-! ### Claim C5 -/

/-- Reduction bound of `reduceStp` (reduce.c line 716):
`reductbound = MAX(nedges / 1000, minelims)` — computed from the **arc
count** `g->edges`. -/
def reduceStp_reductbound (g : Graph) (minelims : Nat) : Nat :=
  max (nedges g / 1000) minelims

/-- Reduction bound of `reducePc` (reduce.c line 839):
`reductbound = MAX(nnodes / 1000, minelims)`. -/
def reducePc_reductbound (g : Graph) (minelims : Nat) : Nat :=
  max (g.knots / 1000) minelims

/-- Reduction bound of `reduceMw` (reduce.c line 907):
`redbound = MAX(nnodes / 1000, minelims)`. -/
def reduceMw_redbound (g : Graph) (minelims : Nat) : Nat :=
  max (g.knots / 1000) minelims

/-- Modelled from the spec: "a test becomes `inactive` when its elimination
count in the current round is ≤ a reduction bound
(`max(nodeCount/1000, minElims)` ...)". -/
def specReductionBound (g : Graph) (minelims : Nat) : Nat :=
  max (g.knots / 1000) minelims

/-- 10 nodes carrying 2000 parallel arcs pairs: `g->edges = 4000`. -/
def gC5 : Graph :=
  ⟨10, 0, StpType.spg, List.replicate 2000 ⟨0, 1, 1, 1⟩, [], [], [], []⟩

/-- **C5, counterexample**: the bound of the plain-STP package is computed
from the edge (arc) count, not the node count: on `gC5` with
`minelims = 0` the code computes `max(4000/1000, 0) = 4` while the claimed
formula `max(nodeCount/1000, minElims)` gives `0`. -/
theorem C5_counterexample :
    reduceStp_reductbound gC5 0 = 4 ∧ specReductionBound gC5 0 = 0 ∧
    reduceStp_reductbound gC5 0 ≠ specReductionBound gC5 0 := by
  have h4 : reduceStp_reductbound gC5 0 = 4 := by
    unfold reduceStp_reductbound nedges gC5
    rw [List.length_replicate]
    decide
  have h0 : specReductionBound gC5 0 = 0 := rfl
  refine ⟨h4, h0, ?_⟩
  rw [h4, h0]
  decide

lemma ite_deactivate {c : Prop} [Decidable c] {b : Bool}
    (h : (if c then false else b) = true) : b = true := by
  split at h
  · exact Bool.noConfusion h
  · exact h

lemma ite_restart {c : Prop} [Decidable c] {b x : Bool}
    (h : (if c then x else b) = true) : b = true ∨ c := by
  split at h
  · exact Or.inr ‹c›
  · exact Or.inl h

lemma pcIter_sd_reactivation (p : PcParams) (o : PcRound) (s : PcState)
    (h : (pcIter p o s).sd = true) :
    s.sd = true ∨ (pcIter p o s).restartedNow = true := by
  rcases ite_restart h with h2 | hC
  · rcases ite_restart h2 with h3 | hA
    · exact Or.inl (ite_deactivate h3)
    · refine Or.inr (decide_eq_true (Or.inl ?_))
      exact decide_eq_true (Or.inr hA)
  · exact Or.inr (decide_eq_true (Or.inr hC))

lemma pcIter_sdc_reactivation (p : PcParams) (o : PcRound) (s : PcState)
    (h : (pcIter p o s).sdc = true) :
    s.sdc = true ∨ (pcIter p o s).restartedNow = true := by
  rcases ite_restart h with h2 | hC
  · rcases ite_restart h2 with h3 | hA
    · exact Or.inl (ite_deactivate h3)
    · exact Or.inr (decide_eq_true (Or.inl (decide_eq_true (Or.inr hA))))
  · exact Or.inr (decide_eq_true (Or.inr hC))

lemma pcIter_sdw_reactivation (p : PcParams) (o : PcRound) (s : PcState)
    (h : (pcIter p o s).sdw = true) :
    s.sdw = true ∨ (pcIter p o s).restartedNow = true := by
  rcases ite_restart h with h2 | hC
  · rcases ite_restart h2 with h3 | hA
    · exact Or.inl (ite_deactivate h3)
    · exact Or.inr (decide_eq_true (Or.inl (decide_eq_true (Or.inr hA))))
  · exact Or.inr (decide_eq_true (Or.inr hC))

lemma pcIter_da_reactivation (p : PcParams) (o : PcRound) (s : PcState)
    (h : (pcIter p o s).da = true) :
    s.da = true ∨ (pcIter p o s).restartedNow = true := by
  rcases ite_restart h with h2 | hC
  · rcases ite_restart h2 with h3 | hA
    · exact Or.inl (ite_deactivate h3)
    · exact Or.inr (decide_eq_true (Or.inl (decide_eq_true (Or.inr hA))))
  · exact Or.inr (decide_eq_true (Or.inr hC))

lemma pcIter_nvsl_reactivation (p : PcParams) (o : PcRound) (s : PcState)
    (h : (pcIter p o s).nvsl = true) :
    s.nvsl = true ∨ (pcIter p o s).restartedNow = true := by
  rcases ite_restart h with h2 | hC
  · rcases ite_restart h2 with h3 | hA
    · exact Or.inl (ite_deactivate h3)
    · exact Or.inr (decide_eq_true (Or.inl (decide_eq_true (Or.inr hA))))
  · exact Or.inr (decide_eq_true (Or.inr hC))

lemma pcIter_bd3_reactivation (p : PcParams) (o : PcRound) (s : PcState)
    (h : (pcIter p o s).bd3 = true) :
    s.bd3 = true ∨ (pcIter p o s).restartedNow = true := by
  rcases ite_restart h with h2 | hC
  · rcases ite_restart h2 with h3 | hA
    · exact Or.inl (ite_deactivate h3)
    · exact Or.inr (decide_eq_true (Or.inl (decide_eq_true (Or.inr hA))))
  · exact Or.inr (decide_eq_true (Or.inr hC))

lemma pcIter_sdstar_reactivation (p : PcParams) (o : PcRound) (s : PcState)
    (h : (pcIter p o s).sdstar = true) :
    s.sdstar = true ∨ (pcIter p o s).restartedNow = true :=
  Or.inl (ite_deactivate h)

lemma pcIter_bred_reactivation (p : PcParams) (o : PcRound) (s : PcState)
    (h : (pcIter p o s).bred = true) :
    s.bred = true ∨ (pcIter p o s).restartedNow = true :=
  Or.inl (ite_deactivate h)

lemma stpRestartPhase_le (p : StpParams) (t : StpState) (r : Bool)
    (h : (stpRestartPhase p t r).le = true) :
    t.le = true ∨ (stpRestartPhase p t r).restartedNow = true := by
  unfold stpRestartPhase at h ⊢
  cases r
  · rw [if_neg (by simp)] at h ⊢
    exact Or.inl h
  · rw [if_pos rfl] at h ⊢
    exact Or.inr rfl

lemma stpRestartPhase_sd (p : StpParams) (t : StpState) (r : Bool)
    (h : (stpRestartPhase p t r).sd = true) :
    t.sd = true ∨ (stpRestartPhase p t r).restartedNow = true := by
  unfold stpRestartPhase at h ⊢
  cases r
  · rw [if_neg (by simp)] at h ⊢
    exact Or.inl h
  · rw [if_pos rfl] at h ⊢
    exact Or.inr rfl

lemma stpRestartPhase_sdc (p : StpParams) (t : StpState) (r : Bool)
    (h : (stpRestartPhase p t r).sdc = true) :
    t.sdc = true ∨ (stpRestartPhase p t r).restartedNow = true := by
  unfold stpRestartPhase at h ⊢
  cases r
  · rw [if_neg (by simp)] at h ⊢
    exact Or.inl h
  · rw [if_pos rfl] at h ⊢
    exact Or.inr rfl

lemma stpRestartPhase_da (p : StpParams) (t : StpState) (r : Bool)
    (h : (stpRestartPhase p t r).da = true) :
    t.da = true ∨ (stpRestartPhase p t r).restartedNow = true := by
  unfold stpRestartPhase at h ⊢
  cases r
  · rw [if_neg (by simp)] at h ⊢
    exact Or.inl h
  · rw [if_pos rfl] at h ⊢
    exact Or.inr rfl

lemma stpRestartPhase_bd3 (p : StpParams) (t : StpState) (r : Bool)
    (h : (stpRestartPhase p t r).bd3 = true) :
    t.bd3 = true ∨ (stpRestartPhase p t r).restartedNow = true := by
  unfold stpRestartPhase at h ⊢
  cases r
  · rw [if_neg (by simp)] at h ⊢
    exact Or.inl h
  · rw [if_pos rfl] at h ⊢
    exact Or.inr rfl

lemma stpRestartPhase_nvsl (p : StpParams) (t : StpState) (r : Bool)
    (h : (stpRestartPhase p t r).nvsl = true) :
    t.nvsl = true ∨ (stpRestartPhase p t r).restartedNow = true := by
  unfold stpRestartPhase at h ⊢
  cases r
  · rw [if_neg (by simp)] at h ⊢
    exact Or.inl h
  · rw [if_pos rfl] at h ⊢
    exact Or.inr rfl

lemma stpRestartPhase_bred (p : StpParams) (t : StpState) (r : Bool)
    (h : (stpRestartPhase p t r).bred = true) : t.bred = true := by
  unfold stpRestartPhase at h
  cases r
  · rwa [if_neg (by simp)] at h
  · rwa [if_pos rfl] at h

lemma stpIter_le_reactivation (p : StpParams) (o : StpRound) (s : StpState)
    (h : (stpInnerIter p o s).le = true) :
    s.le = true ∨ (stpInnerIter p o s).restartedNow = true := by
  rcases stpRestartPhase_le p (stpTestPhase p o s)
      (decide (s.innerRestarts < (stpTestPhase p o s).innerRestarts)) h with h1 | h1
  · exact Or.inl (ite_deactivate h1)
  · exact Or.inr h1

lemma stpIter_sd_reactivation (p : StpParams) (o : StpRound) (s : StpState)
    (h : (stpInnerIter p o s).sd = true) :
    s.sd = true ∨ (stpInnerIter p o s).restartedNow = true := by
  rcases stpRestartPhase_sd p (stpTestPhase p o s)
      (decide (s.innerRestarts < (stpTestPhase p o s).innerRestarts)) h with h1 | h1
  · exact Or.inl (ite_deactivate h1)
  · exact Or.inr h1

lemma stpIter_sdc_reactivation (p : StpParams) (o : StpRound) (s : StpState)
    (h : (stpInnerIter p o s).sdc = true) :
    s.sdc = true ∨ (stpInnerIter p o s).restartedNow = true := by
  rcases stpRestartPhase_sdc p (stpTestPhase p o s)
      (decide (s.innerRestarts < (stpTestPhase p o s).innerRestarts)) h with h1 | h1
  · exact Or.inl (ite_deactivate h1)
  · exact Or.inr h1

lemma stpIter_da_reactivation (p : StpParams) (o : StpRound) (s : StpState)
    (h : (stpInnerIter p o s).da = true) :
    s.da = true ∨ (stpInnerIter p o s).restartedNow = true := by
  rcases stpRestartPhase_da p (stpTestPhase p o s)
      (decide (s.innerRestarts < (stpTestPhase p o s).innerRestarts)) h with h1 | h1
  · exact Or.inl (ite_deactivate h1)
  · exact Or.inr h1

lemma stpIter_bd3_reactivation (p : StpParams) (o : StpRound) (s : StpState)
    (h : (stpInnerIter p o s).bd3 = true) :
    s.bd3 = true ∨ (stpInnerIter p o s).restartedNow = true := by
  rcases stpRestartPhase_bd3 p (stpTestPhase p o s)
      (decide (s.innerRestarts < (stpTestPhase p o s).innerRestarts)) h with h1 | h1
  · exact Or.inl (ite_deactivate h1)
  · exact Or.inr h1

lemma stpIter_nvsl_reactivation (p : StpParams) (o : StpRound) (s : StpState)
    (h : (stpInnerIter p o s).nvsl = true) :
    s.nvsl = true ∨ (stpInnerIter p o s).restartedNow = true := by
  rcases stpRestartPhase_nvsl p (stpTestPhase p o s)
      (decide (s.innerRestarts < (stpTestPhase p o s).innerRestarts)) h with h1 | h1
  · exact Or.inl (ite_deactivate h1)
  · exact Or.inr h1

lemma stpIter_bred_reactivation (p : StpParams) (o : StpRound) (s : StpState)
    (h : (stpInnerIter p o s).bred = true) :
    s.bred = true ∨ (stpInnerIter p o s).restartedNow = true :=
  Or.inl (ite_deactivate (stpRestartPhase_bred p (stpTestPhase p o s)
    (decide (s.innerRestarts < (stpTestPhase p o s).innerRestarts)) h))

lemma mwIter_ans_reactivation (p : MwParams) (o : MwRound) (s : MwState)
    (h : (mwIter p o s).ans = true) :
    s.ans = true ∨ (mwIter p o s).restartedNow = true := by
  rcases ite_restart h with h1 | hA
  · exact Or.inl (ite_deactivate h1)
  · exact Or.inr (decide_eq_true (Or.inr hA))

lemma mwIter_nnp_reactivation (p : MwParams) (o : MwRound) (s : MwState)
    (h : (mwIter p o s).nnp = true) :
    s.nnp = true ∨ (mwIter p o s).restartedNow = true := by
  rcases ite_restart h with h1 | hA
  · exact Or.inl (ite_deactivate h1)
  · exact Or.inr (decide_eq_true (Or.inr hA))

lemma mwIter_npv_reactivation (p : MwParams) (o : MwRound) (s : MwState)
    (h : (mwIter p o s).npv = true) :
    s.npv = true ∨ (mwIter p o s).restartedNow = true := by
  rcases ite_restart h with h1 | hA
  · exact Or.inl (ite_deactivate h1)
  · exact Or.inr (decide_eq_true (Or.inr hA))

lemma mwIter_ansad_reactivation (p : MwParams) (o : MwRound) (s : MwState)
    (h : (mwIter p o s).ansad = true) :
    s.ansad = true ∨ (mwIter p o s).restartedNow = true := by
  rcases ite_restart h with h1 | hA
  · exact Or.inl (ite_deactivate h1)
  · exact Or.inr (decide_eq_true (Or.inr hA))

lemma mwIter_ansad2_reactivation (p : MwParams) (o : MwRound) (s : MwState)
    (h : (mwIter p o s).ansad2 = true) :
    s.ansad2 = true ∨ (mwIter p o s).restartedNow = true := by
  rcases ite_restart h with h1 | hA
  · exact Or.inl (ite_deactivate h1)
  · exact Or.inr (decide_eq_true (Or.inr hA))

lemma mwIter_chain2_reactivation (p : MwParams) (o : MwRound) (s : MwState)
    (h : (mwIter p o s).chain2 = true) :
    s.chain2 = true ∨ (mwIter p o s).restartedNow = true := by
  rcases ite_restart h with h1 | hA
  · exact Or.inl (ite_deactivate (ite_deactivate h1))
  · exact Or.inr (decide_eq_true (Or.inr hA))

lemma mwIter_da_reactivation (p : MwParams) (o : MwRound) (s : MwState)
    (h : (mwIter p o s).da = true) :
    s.da = true ∨ (mwIter p o s).restartedNow = true :=
  Or.inl (ite_deactivate h)

lemma mwIter_bred_reactivation (p : MwParams) (o : MwRound) (s : MwState)
    (h : (mwIter p o s).bred = true) :
    s.bred = true ∨ (mwIter p o s).restartedNow = true :=
  Or.inl (ite_deactivate h)

/-- **C5, amended**: the per-round elimination threshold of the
prize-collecting and MWCS packages equals `max(nodeCount/1000, minElims)`
as claimed, but the plain-STP package computes
`max(edgeCount/1000, minElims)` from the arc count `g->edges` instead of
the node count; and in the orchestrator loops a deactivated test is
reactivated only by an explicit restart event (the advanced re-run
retrigger or the rooted conversion), captured by the `restartedNow`
observer of each loop skeleton. -/
theorem C5_reduction_bound_amended :
    (∀ (g : Graph) (minelims : Nat),
      reducePc_reductbound g minelims = specReductionBound g minelims ∧
      reduceMw_redbound g minelims = specReductionBound g minelims ∧
      reduceStp_reductbound g minelims
        = specReductionBound { g with knots := nedges g } minelims) ∧
    (∀ (p : PcParams) (o : PcRound) (s : PcState),
      ((pcIter p o s).sd = true → s.sd = true ∨ (pcIter p o s).restartedNow = true) ∧
      ((pcIter p o s).sdc = true → s.sdc = true ∨ (pcIter p o s).restartedNow = true) ∧
      ((pcIter p o s).sdw = true → s.sdw = true ∨ (pcIter p o s).restartedNow = true) ∧
      ((pcIter p o s).sdstar = true → s.sdstar = true ∨ (pcIter p o s).restartedNow = true) ∧
      ((pcIter p o s).da = true → s.da = true ∨ (pcIter p o s).restartedNow = true) ∧
      ((pcIter p o s).bd3 = true → s.bd3 = true ∨ (pcIter p o s).restartedNow = true) ∧
      ((pcIter p o s).nvsl = true → s.nvsl = true ∨ (pcIter p o s).restartedNow = true) ∧
      ((pcIter p o s).bred = true → s.bred = true ∨ (pcIter p o s).restartedNow = true)) ∧
    (∀ (p : StpParams) (o : StpRound) (s : StpState),
      ((stpInnerIter p o s).le = true → s.le = true ∨ (stpInnerIter p o s).restartedNow = true) ∧
      ((stpInnerIter p o s).sd = true → s.sd = true ∨ (stpInnerIter p o s).restartedNow = true) ∧
      ((stpInnerIter p o s).sdc = true → s.sdc = true ∨ (stpInnerIter p o s).restartedNow = true) ∧
      ((stpInnerIter p o s).da = true → s.da = true ∨ (stpInnerIter p o s).restartedNow = true) ∧
      ((stpInnerIter p o s).bd3 = true → s.bd3 = true ∨ (stpInnerIter p o s).restartedNow = true) ∧
      ((stpInnerIter p o s).nvsl = true → s.nvsl = true ∨ (stpInnerIter p o s).restartedNow = true) ∧
      ((stpInnerIter p o s).bred = true → s.bred = true ∨ (stpInnerIter p o s).restartedNow = true)) ∧
    (∀ (p : MwParams) (o : MwRound) (s : MwState),
      ((mwIter p o s).ans = true → s.ans = true ∨ (mwIter p o s).restartedNow = true) ∧
      ((mwIter p o s).nnp = true → s.nnp = true ∨ (mwIter p o s).restartedNow = true) ∧
      ((mwIter p o s).npv = true → s.npv = true ∨ (mwIter p o s).restartedNow = true) ∧
      ((mwIter p o s).ansad = true → s.ansad = true ∨ (mwIter p o s).restartedNow = true) ∧
      ((mwIter p o s).ansad2 = true → s.ansad2 = true ∨ (mwIter p o s).restartedNow = true) ∧
      ((mwIter p o s).chain2 = true → s.chain2 = true ∨ (mwIter p o s).restartedNow = true) ∧
      ((mwIter p o s).da = true → s.da = true ∨ (mwIter p o s).restartedNow = true) ∧
      ((mwIter p o s).bred = true → s.bred = true ∨ (mwIter p o s).restartedNow = true)) := by
  refine ⟨fun g m => ⟨rfl, rfl, rfl⟩, fun p o s => ?_, fun p o s => ?_, fun p o s => ?_⟩
  · exact ⟨pcIter_sd_reactivation p o s, pcIter_sdc_reactivation p o s,
      pcIter_sdw_reactivation p o s, pcIter_sdstar_reactivation p o s,
      pcIter_da_reactivation p o s, pcIter_bd3_reactivation p o s,
      pcIter_nvsl_reactivation p o s, pcIter_bred_reactivation p o s⟩
  · exact ⟨stpIter_le_reactivation p o s, stpIter_sd_reactivation p o s,
      stpIter_sdc_reactivation p o s, stpIter_da_reactivation p o s,
      stpIter_bd3_reactivation p o s, stpIter_nvsl_reactivation p o s,
      stpIter_bred_reactivation p o s⟩
  · exact ⟨mwIter_ans_reactivation p o s, mwIter_nnp_reactivation p o s,
      mwIter_npv_reactivation p o s, mwIter_ansad_reactivation p o s,
      mwIter_ansad2_reactivation p o s, mwIter_chain2_reactivation p o s,
      mwIter_da_reactivation p o s, mwIter_bred_reactivation p o s⟩

def gW5 : Graph := ⟨2500, 0, StpType.pcspg, [⟨0, 1, 1, 1⟩], [], [], [], []⟩

theorem C5_reduction_bound_amended_witness :
    reducePc_reductbound gW5 1 = specReductionBound gW5 1 ∧
    ((pcIter pC8 oW8 sW8).bred = true → sW8.bred = true ∨
      (pcIter pC8 oW8 sW8).restartedNow = true) ∧
    ((pcIter pC8 (oC8 0) (pcInit pC8)).sd = true →
      (pcInit pC8).sd = true ∨ (pcIter pC8 (oC8 0) (pcInit pC8)).restartedNow = true) :=
  ⟨(C5_reduction_bound_amended.1 gW5 1).1,
   (C5_reduction_bound_amended.2.1 pC8 oW8 sW8).2.2.2.2.2.2.2,
   fun _ => (C5_reduction_bound_amended.2.1 pC8 (oC8 0) (pcInit pC8)).1 (by decide)⟩

/-! ### Claim C7 -/

/-- The `PC_REDTYPE` enum of reduce.c (line 56). -/
inductive PcRedType where
  | pc_sdc | pc_sdw1 | pc_sdw2 | pc_bd3
deriving DecidableEq

/-- `getWorkLimits_pc` (reduce.c lines 58-97).  The C `sqrt` on doubles is
abstracted as the parameter `sq`; the `(int)` cast of the non-negative
result truncates, i.e. is `Int.floor`.  Constants: `STP_RED_SDSPBOUND =
200`, `STP_RED_SDSPBOUND2 = 1000`, `STP_RED_EDGELIMIT = 200000`, and
`STP_RED_SDSPBOUND / 2 = 100` for `pc_bd3` in round 0. -/
def pcBaseLimit (round : Nat) (redtype : PcRedType) : ℚ :=
  match redtype with
  | PcRedType.pc_sdc => if 0 < round then 1000 else 200
  | PcRedType.pc_sdw1 => if 0 < round then 1000 else 200
  | PcRedType.pc_sdw2 => if 0 < round then 1000 else 0
  | PcRedType.pc_bd3 => if 0 < round then 1000 else 100

def getWorkLimits_pc (sq : Nat → ℚ) (g : Graph) (round : Nat)
    (redtype : PcRedType) : ℤ :=
  if 200000 ≤ nedges g ∧ round = 0 then
    Int.floor (max (pcBaseLimit round redtype)
      (pcBaseLimit round redtype * sq (nedges g) / 5000))
  else
    Int.floor (max (pcBaseLimit round redtype)
      (pcBaseLimit round redtype * sq (nedges g) / 150))

lemma pcBaseLimit_nonneg (round : Nat) (t : PcRedType) : 0 ≤ pcBaseLimit round t := by
  unfold pcBaseLimit
  cases t <;> dsimp only <;> split <;> norm_num

/-- Executable integer square root by bounded binary search (the invariant
`lo² ≤ n < (hi+1)²` shrinks the interval each step; 64 fuel covers every
64-bit range).  It is used only to build a concrete, faithful stand-in for
the C `sqrt` at the counterexample inputs. -/
def isqrtGo (n : Nat) : Nat → Nat → Nat → Nat
  | 0, lo, _ => lo
  | f + 1, lo, hi =>
    if lo < hi then
      let mid := (lo + hi + 1) / 2
      if mid * mid ≤ n then isqrtGo n f mid hi else isqrtGo n f lo (mid - 1)
    else lo

/-- Square root with three fixed fractional digits: accurate to `10⁻³`,
far within the precision of the C double `sqrt`. -/
def sqA (n : Nat) : ℚ := (isqrtGo (n * 1000000) 64 0 (n * 1000000) : ℚ) / 1000

/-- A prize-collecting graph with `n` parallel edge slots (`g->edges = 2n`). -/
def gBig7 (n : Nat) : Graph :=
  ⟨4, 0, StpType.pcspg, List.replicate n ⟨0, 1, 1, 1⟩, [], [], [], []⟩

lemma nedges_gBig7 (n : Nat) : nedges (gBig7 n) = 2 * n := by
  unfold nedges gBig7
  rw [List.length_replicate]

/-- 99999 edges: `g->edges = 199998`, just below `STP_RED_EDGELIMIT`. -/
def gC7a : Graph := gBig7 99999

/-- 100000 edges: `g->edges = 200000`, at `STP_RED_EDGELIMIT`. -/
def gC7b : Graph := gBig7 100000

lemma nedges_gC7a : nedges gC7a = 199998 := by
  have h := nedges_gBig7 99999
  norm_num at h
  exact h

lemma nedges_gC7b : nedges gC7b = 200000 := by
  have h := nedges_gBig7 100000
  norm_num at h
  exact h

/-- **C7, counterexample**: the work limit is *not* monotone in the edge
count across the `STP_RED_EDGELIMIT = 200000` boundary in round 0: at
199998 arcs the `sqrt`-scaled limit `⌊200·√199998/150⌋ = 596` applies,
while at 200000 arcs the divisor switches from 150 to 5000 and the limit
drops back to the base 200. -/
theorem C7_counterexample :
    nedges gC7a ≤ nedges gC7b ∧
    getWorkLimits_pc sqA gC7a 0 PcRedType.pc_sdc = 596 ∧
    getWorkLimits_pc sqA gC7b 0 PcRedType.pc_sdc = 200 ∧
    getWorkLimits_pc sqA gC7b 0 PcRedType.pc_sdc
      < getWorkLimits_pc sqA gC7a 0 PcRedType.pc_sdc := by
  have hs1 : sqA 199998 = 447211 / 1000 := by
    unfold sqA
    rw [show isqrtGo (199998 * 1000000) 64 0 (199998 * 1000000) = 447211 by decide]
    norm_num
  have hs2 : sqA 200000 = 447213 / 1000 := by
    unfold sqA
    rw [show isqrtGo (200000 * 1000000) 64 0 (200000 * 1000000) = 447213 by decide]
    norm_num
  have hbase : pcBaseLimit 0 PcRedType.pc_sdc = 200 := rfl
  have ha : getWorkLimits_pc sqA gC7a 0 PcRedType.pc_sdc = 596 := by
    unfold getWorkLimits_pc
    rw [nedges_gC7a, if_neg (by norm_num), hs1, hbase]
    norm_num [Int.floor_eq_iff]
  have hb : getWorkLimits_pc sqA gC7b 0 PcRedType.pc_sdc = 200 := by
    unfold getWorkLimits_pc
    rw [nedges_gC7b, if_pos (by norm_num), hs2, hbase]
    norm_num [Int.floor_eq_iff]
  refine ⟨?_, ha, hb, ?_⟩
  · rw [nedges_gC7a, nedges_gC7b]
    omega
  · rw [ha, hb]
    norm_num

lemma floor_max_mono (base d : ℚ) (hb : 0 ≤ base) (hd : 0 < d) {q1 q2 : ℚ}
    (h : q1 ≤ q2) :
    Int.floor (max base (base * q1 / d)) ≤ Int.floor (max base (base * q2 / d)) := by
  apply Int.floor_le_floor
  apply max_le_max le_rfl
  gcongr

/-- **C7, amended**: for a monotone non-negative `sqrt` oracle the work
limit is non-decreasing in the edge count in every round `≥ 1`, and in
round 0 on each side of the `STP_RED_EDGELIMIT = 200000` boundary — but not
across the boundary, where the `sqrt` divisor switches from 150 to 5000
and the limit drops (see the counterexample). -/
theorem C7_worklimit_amended (sq : Nat → ℚ) (hmono : Monotone sq)
    (hpos : ∀ n, 0 ≤ sq n) :
    (∀ (g1 g2 : Graph) (round : Nat) (t : PcRedType), 1 ≤ round →
      nedges g1 ≤ nedges g2 →
      getWorkLimits_pc sq g1 round t ≤ getWorkLimits_pc sq g2 round t) ∧
    (∀ (g1 g2 : Graph) (t : PcRedType),
      nedges g1 ≤ nedges g2 → nedges g2 < 200000 →
      getWorkLimits_pc sq g1 0 t ≤ getWorkLimits_pc sq g2 0 t) ∧
    (∀ (g1 g2 : Graph) (t : PcRedType),
      200000 ≤ nedges g1 → nedges g1 ≤ nedges g2 →
      getWorkLimits_pc sq g1 0 t ≤ getWorkLimits_pc sq g2 0 t) := by
  refine ⟨?_, ?_, ?_⟩
  · intro g1 g2 round t h1 h2
    unfold getWorkLimits_pc
    rw [if_neg (by rintro ⟨-, h0⟩; omega), if_neg (by rintro ⟨-, h0⟩; omega)]
    exact floor_max_mono _ _ (pcBaseLimit_nonneg round t) (by norm_num) (hmono h2)
  · intro g1 g2 t h1 h2
    unfold getWorkLimits_pc
    rw [if_neg (by rintro ⟨hc, -⟩; omega), if_neg (by rintro ⟨hc, -⟩; omega)]
    exact floor_max_mono _ _ (pcBaseLimit_nonneg 0 t) (by norm_num) (hmono h1)
  · intro g1 g2 t h1 h2
    unfold getWorkLimits_pc
    rw [if_pos ⟨h1, rfl⟩, if_pos ⟨Nat.le_trans h1 h2, rfl⟩]
    exact floor_max_mono _ _ (pcBaseLimit_nonneg 0 t) (by norm_num) (hmono h2)

/-- A simple monotone non-negative oracle used to witness the hypotheses of
the amended C7 statement (which holds for every such oracle). -/
def sqLin : Nat → ℚ := fun n => (n : ℚ)

lemma sqLin_mono : Monotone sqLin := fun _ _ h => by
  unfold sqLin
  exact_mod_cast h

lemma sqLin_nonneg : ∀ n, 0 ≤ sqLin n := fun n => by
  unfold sqLin
  positivity

theorem C7_worklimit_amended_witness :
    Monotone sqLin ∧ (∀ n, 0 ≤ sqLin n) ∧ nedges gW2 ≤ nedges gW1 ∧
      getWorkLimits_pc sqLin gW2 1 PcRedType.pc_sdc
        ≤ getWorkLimits_pc sqLin gW1 1 PcRedType.pc_sdc :=
  ⟨sqLin_mono, sqLin_nonneg, by decide,
    (C7_worklimit_amended sqLin sqLin_mono sqLin_nonneg).1 gW2 gW1 1
      PcRedType.pc_sdc (le_refl 1) (by decide)⟩

/-! ### C9: `deleteMultiedges` (reduce.c, lines 361-407)

For each node `k` (ascending), the C function first counts, for every head,
the number of out-arcs of `k` with that head (`count[head]++` over the
out-list), then rescans the out-list: at the first arc `e` whose head still
has `count[head] > 1` it deletes that arc pair (`graph_edge_del`) and
returns `SCIP_ERROR`; otherwise it decrements `count[head]` and goes on.
The out-adjacency list layout is not part of src/, so it is modelled from
the spec: the out-arcs of `k` are the arcs incident to `k` in edge-list
order, tagged with the index of their undirected edge (a self-loop
contributes both of its arcs).  The call site of `deleteMultiedges` inside
`reduce` (lines 2152-2155) is compiled out by `#if 0`. -/

def outArcsFrom (k : Nat) : Nat → List Edge → List (Nat × Nat)
  | _, [] => []
  | i, e :: es =>
      (if e.u = k then [(i, e.v)] else [])
        ++ (if e.v = k then [(i, e.u)] else [])
        ++ outArcsFrom k (i + 1) es

def outArcs (g : Graph) (k : Nat) : List (Nat × Nat) :=
  outArcsFrom k 0 g.edges

/-- Contents of the `count` array after the first pass over the out-list of
a node: multiplicity of each head. -/
def dmCount (arcs : List (Nat × Nat)) : Nat → Nat :=
  fun h => (arcs.filter (fun a => decide (a.2 = h))).length

/-- Second pass: return the first arc whose head count is still `> 1`,
decrementing the count of every passed head (reduce.c, lines 386-398). -/
def dmScan (cnt : Nat → Nat) : List (Nat × Nat) → Option (Nat × Nat)
  | [] => none
  | a :: rest =>
      if 1 < cnt a.2 then some a
      else dmScan (fun h => if h = a.2 then cnt a.2 - 1 else cnt h) rest

def dmNodeScan (g : Graph) (k : Nat) : Option Nat :=
  (dmScan (dmCount (outArcs g k)) (outArcs g k)).map Prod.fst

/-- Index of the undirected edge deleted by `deleteMultiedges`, if any:
the node loop runs `k = 0, ..., nnodes-1` and stops at the first hit. -/
def dmIndex (g : Graph) : Option Nat :=
  (List.range g.knots).findSome? (dmNodeScan g)

/-- `deleteMultiedges`: on the first parallel arc found, delete its edge
(`graph_edge_del` removes the arc pair, modelled from the spec as removal
of the undirected edge) and stop with `SCIP_ERROR` (`true`); otherwise
leave the graph alone and return `SCIP_OKAY` (`false`). -/
def deleteMultiedges (g : Graph) : Graph × Bool :=
  match dmIndex g with
  | some i => ({ g with edges := g.edges.eraseIdx i }, true)
  | none => (g, false)

/-- Some node has two out-arcs with the same head (a parallel edge pair, or
a self-loop). -/
def hasDupHead : List (Nat × Nat) → Bool
  | [] => false
  | a :: rest => (rest.any fun b => decide (b.2 = a.2)) || hasDupHead rest

def hasMultiedge (g : Graph) : Bool :=
  (List.range g.knots).any fun k => hasDupHead (outArcs g k)

/-- Remapping of the edge costs by position, leaving the endpoints alone. -/
def reCostFrom (c : Nat → ℚ × ℚ) : Nat → List Edge → List Edge
  | _, [] => []
  | i, e :: es => { e with
      c1 := (c i).1
      c2 := (c i).2 } :: reCostFrom c (i + 1) es

def reCost (g : Graph) (c : Nat → ℚ × ℚ) : Graph :=
  { g with edges := reCostFrom c 0 g.edges }

lemma dmScan_isSome :
    ∀ (arcs : List (Nat × Nat)) (cnt : Nat → Nat),
      (∀ h, cnt h = (arcs.filter (fun a => decide (a.2 = h))).length) →
      (dmScan cnt arcs).isSome = hasDupHead arcs := by
  intro arcs
  induction arcs with
  | nil => intro cnt _; rfl
  | cons a rest ih =>
    intro cnt hc
    have hca := hc a.2
    rw [List.filter_cons_of_pos (by simp)] at hca
    by_cases hgt : 1 < cnt a.2
    · have hpos : 0 < (rest.filter (fun b => decide (b.2 = a.2))).length := by
        simp only [List.length_cons] at hca; omega
      obtain ⟨b, hbf⟩ := List.exists_mem_of_length_pos hpos
      obtain ⟨hbmem, hbp⟩ := List.mem_filter.mp hbf
      have hany : (rest.any fun b => decide (b.2 = a.2)) = true :=
        List.any_eq_true.mpr ⟨b, hbmem, hbp⟩
      simp only [dmScan, if_pos hgt, Option.isSome_some, hasDupHead, hany, Bool.true_or]
    · have h0 : (rest.filter (fun b => decide (b.2 = a.2))).length = 0 := by
        simp only [List.length_cons] at hca; omega
      have hnil : rest.filter (fun b => decide (b.2 = a.2)) = [] :=
        List.length_eq_zero.mp h0
      have hany : (rest.any fun b => decide (b.2 = a.2)) = false := by
        rw [List.any_eq_false]
        intro b hb
        intro hbp
        have : b ∈ rest.filter (fun b => decide (b.2 = a.2)) :=
          List.mem_filter.mpr ⟨hb, hbp⟩
        rw [hnil] at this
        exact absurd this (List.not_mem_nil b)
      simp only [dmScan, if_neg hgt, hasDupHead, hany, Bool.false_or]
      apply ih
      intro h
      by_cases hh : h = a.2
      · subst hh
        show (if a.2 = a.2 then cnt a.2 - 1 else cnt a.2) = _
        rw [if_pos rfl, hnil]
        simp only [List.length_cons] at hca
        simp only [List.length_nil]
        omega
      · simp only [if_neg hh]
        rw [hc h, List.filter_cons_of_neg (by simpa using fun heq => hh heq.symm)]

lemma dmScan_mem :
    ∀ (arcs : List (Nat × Nat)) (cnt : Nat → Nat) (a : Nat × Nat),
      dmScan cnt arcs = some a → a ∈ arcs := by
  intro arcs
  induction arcs with
  | nil => intro cnt a h; exact absurd h (by simp [dmScan])
  | cons b rest ih =>
    intro cnt a h
    unfold dmScan at h
    by_cases hgt : 1 < cnt b.2
    · rw [if_pos hgt] at h
      cases h
      exact List.mem_cons_self _ _
    · rw [if_neg hgt] at h
      exact List.mem_cons_of_mem _ (ih _ a h)

lemma outArcsFrom_fst_lt (k : Nat) :
    ∀ (es : List Edge) (i : Nat) (p : Nat × Nat),
      p ∈ outArcsFrom k i es → p.1 < i + es.length := by
  intro es
  induction es with
  | nil => intro i p h; exact absurd h (List.not_mem_nil p)
  | cons e es ih =>
    intro i p h
    unfold outArcsFrom at h
    rcases List.mem_append.mp h with h1 | h2
    · rcases List.mem_append.mp h1 with ha | hb
      · have : p = (i, e.v) := by
          by_cases hu : e.u = k
          · rw [if_pos hu] at ha; simpa using ha
          · rw [if_neg hu] at ha; exact absurd ha (List.not_mem_nil p)
        subst this
        simp only [List.length_cons]
        omega
      · have : p = (i, e.u) := by
          by_cases hv : e.v = k
          · rw [if_pos hv] at hb; simpa using hb
          · rw [if_neg hv] at hb; exact absurd hb (List.not_mem_nil p)
        subst this
        simp only [List.length_cons]
        omega
    · have := ih (i + 1) p h2
      simp only [List.length_cons]
      omega

lemma dmNodeScan_isSome (g : Graph) (k : Nat) :
    (dmNodeScan g k).isSome = hasDupHead (outArcs g k) := by
  unfold dmNodeScan
  rw [← dmScan_isSome (outArcs g k) (dmCount (outArcs g k)) (fun _ => rfl)]
  cases dmScan (dmCount (outArcs g k)) (outArcs g k) <;> rfl

lemma dmNodeScan_lt (g : Graph) (k i : Nat) (h : dmNodeScan g k = some i) :
    i < g.edges.length := by
  unfold dmNodeScan at h
  rcases Option.map_eq_some'.mp h with ⟨p, hp, hfst⟩
  have := outArcsFrom_fst_lt k g.edges 0 p (dmScan_mem _ _ p hp)
  omega

lemma outArcsFrom_reCostFrom (k : Nat) (c : Nat → ℚ × ℚ) :
    ∀ (es : List Edge) (i : Nat),
      outArcsFrom k i (reCostFrom c i es) = outArcsFrom k i es := by
  intro es
  induction es with
  | nil => intro i; rfl
  | cons e es ih =>
    intro i
    show (if e.u = k then [(i, e.v)] else []) ++ (if e.v = k then [(i, e.u)] else [])
        ++ outArcsFrom k (i + 1) (reCostFrom c (i + 1) es) = _
    rw [ih (i + 1)]
    rfl

lemma dmNodeScan_reCost (g : Graph) (c : Nat → ℚ × ℚ) :
    dmNodeScan (reCost g c) = dmNodeScan g := by
  funext k
  unfold dmNodeScan outArcs
  show (dmScan (dmCount (outArcsFrom k 0 (reCostFrom c 0 g.edges)))
      (outArcsFrom k 0 (reCostFrom c 0 g.edges))).map Prod.fst = _
  rw [outArcsFrom_reCostFrom k c g.edges 0]

lemma dmIndex_reCost (g : Graph) (c : Nat → ℚ × ℚ) :
    dmIndex (reCost g c) = dmIndex g := by
  unfold dmIndex
  rw [dmNodeScan_reCost]
  rfl

lemma dmIndex_lt (g : Graph) (i : Nat) (h : dmIndex g = some i) :
    i < g.edges.length := by
  unfold dmIndex at h
  obtain ⟨k, _, hk⟩ := List.exists_of_findSome?_eq_some h
  exact dmNodeScan_lt g k i hk

lemma dmIndex_isSome_iff (g : Graph) :
    (dmIndex g).isSome = hasMultiedge g := by
  unfold dmIndex hasMultiedge
  induction List.range g.knots with
  | nil => rfl
  | cons k ks ih =>
    rw [List.findSome?_cons, List.any_cons]
    cases hk : dmNodeScan g k with
    | some i =>
      have : hasDupHead (outArcs g k) = true := by
        rw [← dmNodeScan_isSome, hk]; rfl
      rw [this, Bool.true_or]
      rfl
    | none =>
      have : hasDupHead (outArcs g k) = false := by
        rw [← dmNodeScan_isSome, hk]; rfl
      rw [this, Bool.false_or]
      exact ih

/-- Counterexample graph for C9: two parallel edges between nodes 0 and 1,
the first-listed one being the cheaper. -/
def gC9 : Graph := ⟨2, 0, StpType.spg, [⟨0, 1, 1, 1⟩, ⟨0, 1, 5, 5⟩], [], [], [], []⟩

/-- C9: "given two parallel edges between the same node pair with different
costs, after reduction exactly one (the cheaper) survives" is wrong on both
counts for this code.  `reduce` never collapses parallel edges: the call to
`deleteMultiedges` is compiled out (`#if 0`, lines 2152-2155), so even at
level 2 both parallel edges survive a full `reduce` (with packages that
leave the graph alone).  And `deleteMultiedges` itself, run directly,
deletes the first parallel arc of the scan regardless of cost - here the
cheaper edge (cost 1 < 5) is the one deleted, the expensive one survives -
and it aborts with `SCIP_ERROR` instead of continuing. -/
theorem C9_counterexample :
    (deleteMultiedges gC9).2 = true ∧
    (deleteMultiedges gC9).1.edges = [⟨0, 1, 5, 5⟩] ∧
    (gC9.edges.get ⟨0, by decide⟩).c1 < (gC9.edges.get ⟨1, by decide⟩).c1 ∧
    (reduceM idPkgs gC9 2 0 false).1.edges = gC9.edges := by
  refine ⟨by decide, by decide, by decide, by decide⟩

/-- C9 (amended): what `deleteMultiedges` actually guarantees.  It flags an
error exactly when some node has two parallel out-arcs (or a self-loop); in
that case it removes exactly one undirected edge (the first hit of the
scan) and aborts; the choice of the deleted edge is independent of the edge
costs (`reCost` remaps all costs without moving any endpoint); and when no
parallel pair exists the graph is returned unchanged with success. -/
theorem C9_multiedge_amended (g : Graph) (c : Nat → ℚ × ℚ) :
    ((deleteMultiedges g).2 = true ↔ hasMultiedge g = true) ∧
    (∀ i, dmIndex g = some i →
      i < g.edges.length ∧
      (deleteMultiedges g).1.edges = g.edges.eraseIdx i ∧
      (deleteMultiedges g).1.edges.length + 1 = g.edges.length) ∧
    dmIndex (reCost g c) = dmIndex g ∧
    ((deleteMultiedges g).2 = false → (deleteMultiedges g).1 = g) := by
  refine ⟨?_, ?_, dmIndex_reCost g c, ?_⟩
  · rw [← dmIndex_isSome_iff]
    unfold deleteMultiedges
    cases h : dmIndex g <;> simp
  · intro i hi
    have hlt := dmIndex_lt g i hi
    unfold deleteMultiedges
    rw [hi]
    refine ⟨hlt, rfl, ?_⟩
    show (g.edges.eraseIdx i).length + 1 = g.edges.length
    exact List.length_eraseIdx_add_one hlt
  · intro h
    unfold deleteMultiedges at h ⊢
    cases hi : dmIndex g
    · rfl
    · rw [hi] at h
      exact absurd h (by simp)

def gW9 : Graph := ⟨2, 0, StpType.spg, [⟨0, 1, 3, 3⟩, ⟨0, 1, 2, 2⟩], [], [], [], []⟩

theorem C9_multiedge_amended_witness :
    (deleteMultiedges gW9).2 = true ∧
    dmIndex (reCost gW9 (fun i => ((i : ℚ), (i : ℚ)))) = dmIndex gW9 :=
  ⟨(C9_multiedge_amended gW9 (fun i => ((i : ℚ), (i : ℚ)))).1.mpr (by decide),
   (C9_multiedge_amended gW9 (fun i => ((i : ℚ), (i : ℚ)))).2.2.1⟩

/-! ### C4: `level0RpcRmwInfeas` / `level0RpcRmw` (reduce.c, lines 481-596)

`level0RpcRmwInfeas` first runs a DFS from the source that refuses to walk
an arc out of the root whose head is a non-fixed (potential) terminal
(lines 510-532).  It then scans `k = 0, ..., nnodes-1`: an unmarked
terminal that is a fixed terminal makes it set `*infeas = TRUE` and return
`SCIP_OKAY` at once (lines 540-546); an unmarked non-fixed terminal is
removed together with its twin pseudo-terminal, whose prize is added to
the offset (lines 547-556, `graph_pc_getTwinTerm` and
`graph_pc_deleteTerm` are not under src/ and are modelled from the spec:
the twin map is stored per node, deletion drops every edge at the terminal
and its twin and clears both terminal flags).  Finally the edges of all
remaining unmarked positive-degree nodes are deleted (lines 559-568).
`level0RpcRmw` (lines 579-596) calls it and turns the infeasible flag into
a `SCIP_ERROR` return. -/

def allowRpc (g : Graph) : Nat → Nat → Bool := fun t h =>
  decide ¬(t = g.source ∧ termOf g h = true ∧ fixedOf g h = false)

/-- Marks of the pseudo-terminal-avoiding DFS of `level0RpcRmwInfeas`. -/
def rpcReach (g : Graph) : Finset ℕ :=
  (fun s => trailStep (allowRpc g) g.edges s)^[g.knots] {g.source}

/-- `graph_pc_deleteTerm` (modelled from the spec): drop every edge at the
terminal `k` and at its twin, and clear both terminal flags. -/
def graph_pc_deleteTerm (g : Graph) (k : Nat) : Graph :=
  { g with
    edges := g.edges.filter fun e =>
      decide (¬(e.u = k ∨ e.v = k ∨ e.u = twinOf g k ∨ e.v = twinOf g k))
    isTerm := (g.isTerm.set k false).set (twinOf g k) false }

/-- Terminal scan of `level0RpcRmwInfeas` (lines 535-558): the marks are
fixed, the graph and the offset evolve; the first unmarked fixed terminal
stops the scan with the infeasible flag. -/
def rpcScan (R : Finset ℕ) : List Nat → Graph → ℚ → Graph × ℚ × Bool
  | [], g, off => (g, off, false)
  | k :: ks, g, off =>
    if termOf g k = true ∧ k ∉ R then
      if fixedOf g k = true then (g, off, true)
      else rpcScan R ks (graph_pc_deleteTerm g k) (off + prizeOf g (twinOf g k))
    else rpcScan R ks g off

def level0RpcRmwInfeas (g : Graph) : Graph × ℚ × Bool :=
  if (rpcScan (rpcReach g) (List.range g.knots) g 0).2.2 = true then
    rpcScan (rpcReach g) (List.range g.knots) g 0
  else
    ({ (rpcScan (rpcReach g) (List.range g.knots) g 0).1 with
        edges := level0Sweep (rpcReach g) (List.range g.knots)
          (rpcScan (rpcReach g) (List.range g.knots) g 0).1.edges },
      (rpcScan (rpcReach g) (List.range g.knots) g 0).2.1, false)

def level0RpcRmw (g : Graph) : Except Unit (Graph × ℚ) :=
  if (level0RpcRmwInfeas g).2.2 = true then Except.error ()
  else Except.ok ((level0RpcRmwInfeas g).1, (level0RpcRmwInfeas g).2.1)

lemma getD_set_false_le (l : List Bool) :
    ∀ (m j : Nat), ((l.set m false).getD j false) = true → l.getD j false = true := by
  induction l with
  | nil => intro m j h; simpa using h
  | cons a l ih =>
    intro m j h
    cases m with
    | zero =>
      cases j with
      | zero => simpa using h
      | succ j => simpa using h
    | succ m =>
      cases j with
      | zero => simpa using h
      | succ j =>
        simp only [List.set_cons_succ, List.getD_cons_succ] at h ⊢
        exact ih m j h

lemma getD_set_ne (l : List Bool) :
    ∀ (m j : Nat), j ≠ m → ((l.set m false).getD j false) = l.getD j false := by
  induction l with
  | nil => intro m j _; rfl
  | cons a l ih =>
    intro m j hne
    cases m with
    | zero =>
      cases j with
      | zero => exact absurd rfl hne
      | succ j => rfl
    | succ m =>
      cases j with
      | zero => rfl
      | succ j =>
        simp only [List.set_cons_succ, List.getD_cons_succ]
        exact ih m j (fun hc => hne (by omega))

lemma termOf_deleteTerm_le (g : Graph) (k j : Nat)
    (h : termOf (graph_pc_deleteTerm g k) j = true) : termOf g j = true := by
  have h' : ((g.isTerm.set k false).set (twinOf g k) false).getD j false = true := h
  exact getD_set_false_le _ _ _ (getD_set_false_le _ _ _ h')

lemma termOf_deleteTerm_ne (g : Graph) (k j : Nat) (h1 : j ≠ k)
    (h2 : j ≠ twinOf g k) :
    termOf (graph_pc_deleteTerm g k) j = termOf g j := by
  unfold graph_pc_deleteTerm termOf
  show ((g.isTerm.set k false).set (twinOf g k) false).getD j false = _
  rw [getD_set_ne _ _ _ h2, getD_set_ne _ _ _ h1]

lemma fixedOf_deleteTerm (g : Graph) (k : Nat) :
    fixedOf (graph_pc_deleteTerm g k) = fixedOf g := rfl

lemma twinOf_deleteTerm (g : Graph) (k : Nat) :
    twinOf (graph_pc_deleteTerm g k) = twinOf g := rfl

lemma rpcScan_infeas_iff (R : Finset ℕ) :
    ∀ (ks : List Nat) (g : Graph) (off : ℚ),
      (∀ k ∈ ks, termOf g k = true → fixedOf g k = false →
        fixedOf g (twinOf g k) = false) →
      ((rpcScan R ks g off).2.2 = true ↔
        ∃ k ∈ ks, k ∉ R ∧ termOf g k = true ∧ fixedOf g k = true) := by
  intro ks
  induction ks with
  | nil => intro g off _; simp [rpcScan]
  | cons k0 ks ih =>
    intro g off htwin
    show ((if termOf g k0 = true ∧ k0 ∉ R then
        if fixedOf g k0 = true then (g, off, true)
        else rpcScan R ks (graph_pc_deleteTerm g k0) (off + prizeOf g (twinOf g k0))
      else rpcScan R ks g off).2.2 = true ↔ _)
    by_cases hc : termOf g k0 = true ∧ k0 ∉ R
    · rw [if_pos hc]
      by_cases hf : fixedOf g k0 = true
      · rw [if_pos hf]
        constructor
        · intro _
          exact ⟨k0, List.mem_cons_self _ _, hc.2, hc.1, hf⟩
        · intro _
          rfl
      · rw [if_neg hf]
        have hf0 : fixedOf g k0 = false := Bool.not_eq_true _ ▸ Bool.eq_false_iff.mpr hf
        have htw : fixedOf g (twinOf g k0) = false :=
          htwin k0 (List.mem_cons_self _ _) hc.1 hf0
        have htwin' : ∀ k ∈ ks, termOf (graph_pc_deleteTerm g k0) k = true →
            fixedOf (graph_pc_deleteTerm g k0) k = false →
            fixedOf (graph_pc_deleteTerm g k0)
              (twinOf (graph_pc_deleteTerm g k0) k) = false := by
          intro k hk ht hfx
          rw [fixedOf_deleteTerm, twinOf_deleteTerm]
          rw [fixedOf_deleteTerm] at hfx
          exact htwin k (List.mem_cons_of_mem _ hk) (termOf_deleteTerm_le g k0 k ht) hfx
        rw [ih (graph_pc_deleteTerm g k0) (off + prizeOf g (twinOf g k0)) htwin']
        constructor
        · rintro ⟨k, hk, hkR, hkt, hkfx⟩
          rw [fixedOf_deleteTerm] at hkfx
          exact ⟨k, List.mem_cons_of_mem _ hk, hkR, termOf_deleteTerm_le g k0 k hkt, hkfx⟩
        · rintro ⟨k, hk, hkR, hkt, hkfx⟩
          rcases List.mem_cons.mp hk with hk0 | hktail
          · subst hk0
            rw [hkfx] at hf0
            exact absurd hf0 (by simp)
          · refine ⟨k, hktail, hkR, ?_, by rw [fixedOf_deleteTerm]; exact hkfx⟩
            have hk1 : k ≠ k0 := by
              intro he
              rw [← he] at hf0
              rw [hf0] at hkfx
              exact absurd hkfx (by simp)
            have hk2 : k ≠ twinOf g k0 := by
              intro he
              rw [← he] at htw
              rw [htw] at hkfx
              exact absurd hkfx (by simp)
            rw [termOf_deleteTerm_ne g k0 k hk1 hk2]
            exact hkt
    · rw [if_neg hc]
      have htwin' : ∀ k ∈ ks, termOf g k = true → fixedOf g k = false →
          fixedOf g (twinOf g k) = false :=
        fun k hk => htwin k (List.mem_cons_of_mem _ hk)
      rw [ih g off htwin']
      constructor
      · rintro ⟨k, hk, h⟩
        exact ⟨k, List.mem_cons_of_mem _ hk, h⟩
      · rintro ⟨k, hk, hkR, hkt, hkfx⟩
        rcases List.mem_cons.mp hk with hk0 | hktail
        · subst hk0
          exact absurd ⟨hkt, hkR⟩ hc
        · exact ⟨k, hktail, hkR, hkt, hkfx⟩

lemma rpcScan_append_skip (R : Finset ℕ) :
    ∀ (ks1 ks2 : List Nat) (g : Graph) (off : ℚ),
      (∀ j ∈ ks1, ¬(termOf g j = true ∧ j ∉ R)) →
      rpcScan R (ks1 ++ ks2) g off = rpcScan R ks2 g off := by
  intro ks1
  induction ks1 with
  | nil => intro ks2 g off _; rfl
  | cons j ks1 ih =>
    intro ks2 g off h
    have hj := h j (List.mem_cons_self _ _)
    show (if termOf g j = true ∧ j ∉ R then _ else rpcScan R (ks1 ++ ks2) g off) = _
    rw [if_neg hj]
    exact ih ks2 g off (fun x hx => h x (List.mem_cons_of_mem _ hx))

lemma level0RpcRmwInfeas_flag (g : Graph) :
    (level0RpcRmwInfeas g).2.2
      = (rpcScan (rpcReach g) (List.range g.knots) g 0).2.2 := by
  unfold level0RpcRmwInfeas
  by_cases h : (rpcScan (rpcReach g) (List.range g.knots) g 0).2.2 = true
  · rw [if_pos h]
  · rw [if_neg h]
    exact (Bool.eq_false_iff.mpr h).symm

lemma rpcScan_cons_fixed (R : Finset ℕ) (k0 : Nat) (ks : List Nat) (g : Graph)
    (off : ℚ) (h1 : termOf g k0 = true) (h2 : k0 ∉ R) (h3 : fixedOf g k0 = true) :
    rpcScan R (k0 :: ks) g off = (g, off, true) := by
  show (if termOf g k0 = true ∧ k0 ∉ R then
      if fixedOf g k0 = true then (g, off, true)
      else rpcScan R ks (graph_pc_deleteTerm g k0) (off + prizeOf g (twinOf g k0))
    else rpcScan R ks g off) = (g, off, true)
  rw [if_pos ⟨h1, h2⟩, if_pos h3]

lemma range_split_at (n k : Nat) (h : k < n) :
    List.range n = List.range k ++ (k :: List.range' (k + 1) (n - k - 1)) := by
  have h1 := List.range'_append 0 k (n - k) 1
  simp only [Nat.one_mul, Nat.zero_add] at h1
  rw [List.range_eq_range', List.range_eq_range']
  conv_lhs => rw [show n = n - k + k by omega]
  rw [← h1]
  congr 1
  rw [show n - k = (n - k - 1) + 1 by omega, List.range'_succ]
  simp only [Nat.add_sub_cancel]

/-- C4 (amended): what the rooted connectivity cleanup actually does.  The
infeasible flag of `level0RpcRmwInfeas` is set, with return code
`SCIP_OKAY`, exactly when some fixed terminal is missed by the
pseudo-terminal-avoiding DFS from the source; the wrapper `level0RpcRmw`
turns that flag into a `SCIP_ERROR` return; and the graph and offset are
handed back unchanged by the detection only under the proviso that no
unreachable terminal precedes (in node order) the offending fixed
terminal - otherwise those earlier pseudo-terminals have already been
deleted and their prizes moved to the offset when the function bails out
(see `C4_counterexample`). -/
theorem C4_infeasibility_amended (g : Graph)
    (htwin : ∀ k, k < g.knots → termOf g k = true → fixedOf g k = false →
      fixedOf g (twinOf g k) = false) :
    ((level0RpcRmwInfeas g).2.2 = true ↔
      ∃ k, k < g.knots ∧ k ∉ rpcReach g ∧ termOf g k = true ∧ fixedOf g k = true) ∧
    (level0RpcRmw g = Except.error () ↔ (level0RpcRmwInfeas g).2.2 = true) ∧
    (∀ k0, k0 < g.knots → k0 ∉ rpcReach g → termOf g k0 = true →
      fixedOf g k0 = true →
      (∀ j, j < k0 → ¬(termOf g j = true ∧ j ∉ rpcReach g)) →
      level0RpcRmwInfeas g = (g, 0, true)) := by
  refine ⟨?_, ?_, ?_⟩
  · rw [level0RpcRmwInfeas_flag,
      rpcScan_infeas_iff (rpcReach g) (List.range g.knots) g 0
        (fun k hk => htwin k (List.mem_range.mp hk))]
    constructor
    · rintro ⟨k, hk, h⟩
      exact ⟨k, List.mem_range.mp hk, h⟩
    · rintro ⟨k, hk, h⟩
      exact ⟨k, List.mem_range.mpr hk, h⟩
  · unfold level0RpcRmw
    by_cases h : (level0RpcRmwInfeas g).2.2 = true
    · rw [if_pos h]
      exact iff_of_true rfl h
    · rw [if_neg h]
      exact iff_of_false (by simp) h
  · intro k0 hk0 hR ht hf hmin
    have hscan : rpcScan (rpcReach g) (List.range g.knots) g 0 = (g, 0, true) := by
      rw [range_split_at g.knots k0 hk0,
        rpcScan_append_skip (rpcReach g) (List.range k0) _ g 0
          (fun j hj => hmin j (List.mem_range.mp hj)),
        rpcScan_cons_fixed (rpcReach g) k0 _ g 0 ht hR hf]
    unfold level0RpcRmwInfeas
    rw [hscan]
    rw [if_pos rfl]

/-- Counterexample graph for C4: the root is node 0; node 1 is an
unreachable non-fixed terminal with twin pseudo-terminal 2 (prize 7);
node 3 is an unreachable fixed terminal.  The scan deletes terminal 1 and
books prize 7 on the offset before it discovers the infeasibility at
node 3. -/
def gC4 : Graph := ⟨4, 0, StpType.rpcspg, [⟨1, 2, 1, 1⟩],
  [true, true, false, true], [true, false, false, true], [0, 2, 1, 3],
  [0, 0, 7, 0]⟩

/-- C4: infeasibility is indeed reported through the `infeas` flag with
return code `SCIP_OKAY` by `level0RpcRmwInfeas`, but the spec's claim that
the graph handed back is "unchanged by the infeasibility detection itself"
fails: on `gC4` the flag is raised and yet the returned graph differs from
the input (terminal 1 and its twin 2 were deleted first) and the offset
has already absorbed prize 7; moreover the wrapper `level0RpcRmw`, the
form called by the reduction loops, converts the flag into a `SCIP_ERROR`
return, not a first-class outcome. -/
theorem C4_counterexample :
    (level0RpcRmwInfeas gC4).2.2 = true ∧
    (level0RpcRmwInfeas gC4).1 ≠ gC4 ∧
    (level0RpcRmwInfeas gC4).2.1 = 7 ∧
    level0RpcRmw gC4 = Except.error () := by
  refine ⟨by decide, by decide, ?_, rfl⟩
  have h : (level0RpcRmwInfeas gC4).2.1 = 0 + (7 : ℚ) := rfl
  rw [h]
  norm_num

def gW4 : Graph := ⟨2, 0, StpType.rpcspg, [], [true, true], [true, true],
  [0, 1], []⟩

theorem C4_infeasibility_amended_witness :
    (∀ k, k < gW4.knots → termOf gW4 k = true → fixedOf gW4 k = false →
      fixedOf gW4 (twinOf gW4 k) = false) ∧
    (level0RpcRmwInfeas gW4).2.2 = true ∧
    level0RpcRmw gW4 = Except.error () ∧
    level0RpcRmwInfeas gW4 = (gW4, 0, true) := by
  have htwin : ∀ k, k < gW4.knots → termOf gW4 k = true → fixedOf gW4 k = false →
      fixedOf gW4 (twinOf gW4 k) = false := by decide
  have hflag : (level0RpcRmwInfeas gW4).2.2 = true :=
    (C4_infeasibility_amended gW4 htwin).1.mpr
      ⟨1, by decide, by decide, by decide, by decide⟩
  refine ⟨htwin, hflag, ?_, ?_⟩
  · exact (C4_infeasibility_amended gW4 htwin).2.1.mpr hflag
  · exact (C4_infeasibility_amended gW4 htwin).2.2 1 (by decide) (by decide)
      (by decide) (by decide) (by decide)
